import Mathlib

/-!
# Verification of the LLM-Email-assistant auto-label automation

Shallow embedding of the parts of `src/llm_email_app` relevant to the
auto-label automation feature, together with proofs of the spec claims:

* `email/rules.py`: `RuleManager._load`, `ProcessedEmailStore`
  (`_prune_locked`, `mark_processed`, `is_processed`, `reset`, `_is_recent`);
* `api.py`: `_auto_label_recent_emails`, `_run_auto_label_pipeline`,
  `_trigger_automation_run`, `update_automation_settings`,
  `_reset_processed_email_cache`, `_load_persisted_logs`,
  `get_automation_logs`.

Modelling conventions:

* Timestamps are integers measured in days.  The Python code stores
  `datetime.now(timezone.utc).isoformat()` strings and compares them either as
  parsed datetimes (`_is_recent`, `_coerce_datetime`) or lexicographically
  (the `sorted(..., key=lambda item: item[1], reverse=True)` call); for the
  uniform ISO format the code generates, both orders agree with chronological
  order, so an integer timeline is a faithful abstraction.
* A Python `dict` keyed by message id is a `List (String × Int)` in insertion
  order with unique keys; assignment updates an existing key in place and
  appends a fresh key at the end, exactly like CPython dicts.
* `sorted(..., reverse=True)` is a stable sort that keeps elements with equal
  keys in their original order; `List.mergeSort` with the reversed boolean
  comparison has exactly this behaviour.
* Fallible external calls (LLM evaluation, Gmail label operations) are
  oracles returning `Except String _`; an `Except.error` models a raised
  exception caught by the corresponding `try/except`.
* Effects that the claims observe but that have no return value (sleeps,
  evaluator invocations, log appends, automation-run triggers) are recorded
  in ghost counters / event lists of the `World` state; these counters are
  instrumentation only and never influence control flow.
-/

/-! ## `email/rules.py`: `ProcessedEmailStore` -/

/-- State of `ProcessedEmailStore`: configuration plus the `_state` dict
mapping message ids to the timestamp at which they were marked processed
(insertion-ordered, unique keys). -/
structure ProcessedStore where
  maxAgeDays : Nat
  maxEntries : Nat
  state : List (String × Int)
  deriving Repr, DecidableEq

/-- `_is_recent(timestamp, cutoff)`: a stored timestamp is recent when it is
at or after the cutoff.  (The parse-failure branch returning `False` cannot
fire in this model because stored timestamps are always well-formed ints.) -/
def isRecent (timestamp cutoff : Int) : Bool :=
  decide (cutoff ≤ timestamp)

/-- CPython dict assignment `st[k] = v`: update the value in place if the key
exists, otherwise append the new binding at the end. -/
def dictInsert (st : List (String × Int)) (k : String) (v : Int) :
    List (String × Int) :=
  if st.any (fun p => p.1 = k) then
    st.map (fun p => if p.1 = k then (k, v) else p)
  else
    st ++ [(k, v)]

/-- `ProcessedEmailStore._prune_locked`, with `now` the current clock reading:
drop entries older than the cutoff, then if still over `max_entries` keep only
the newest `max_entries` entries (stable sort by timestamp, descending). -/
def pruneLocked (maxAgeDays maxEntries : Nat) (now : Int)
    (st : List (String × Int)) : List (String × Int) :=
  if st.isEmpty then st
  else
    let cutoff : Int := now - (maxAgeDays : Int)
    let filtered := st.filter (fun p => isRecent p.2 cutoff)
    if filtered.length > maxEntries then
      (filtered.mergeSort (fun a b => decide (b.2 ≤ a.2))).take maxEntries
    else filtered

/-- `ProcessedEmailStore.mark_processed(message_id)` at clock reading `now`:
record the id with the current timestamp, prune, persist. -/
def markProcessed (s : ProcessedStore) (messageId : String) (now : Int) :
    ProcessedStore :=
  { s with
    state := pruneLocked s.maxAgeDays s.maxEntries now
      (dictInsert s.state messageId now) }

/-- `ProcessedEmailStore.is_processed(message_id)`: pure membership test on
the `_state` dict; it never prunes or writes. -/
def isProcessed (s : ProcessedStore) (messageId : String) : Bool :=
  s.state.any (fun p => p.1 = messageId)

/-- `ProcessedEmailStore.reset()`: clear all entries. -/
def resetStore (s : ProcessedStore) : ProcessedStore :=
  { s with state := [] }

/-- A store created with an empty `_state` (fresh storage file). -/
def emptyStore (maxAgeDays maxEntries : Nat) : ProcessedStore :=
  ⟨maxAgeDays, maxEntries, []⟩

theorem emptyStore_maxAgeDays (a e : Nat) : (emptyStore a e).maxAgeDays = a :=
  rfl

theorem emptyStore_maxEntries (a e : Nat) : (emptyStore a e).maxEntries = e :=
  rfl

/-- A sequence of `mark_processed` calls, each given as (message id, clock
reading at the time of the call). -/
def applyMarks (s : ProcessedStore) (marks : List (String × Int)) :
    ProcessedStore :=
  marks.foldl (fun acc m => markProcessed acc m.1 m.2) s

/-! Small facts about the store operations. -/

theorem dictInsert_of_not_processed {st : List (String × Int)} {k : String}
    (h : st.any (fun p => p.1 = k) = false) (v : Int) :
    dictInsert st k v = st ++ [(k, v)] := by
  simp [dictInsert, h]

theorem mem_of_mem_pruneLocked {a e : Nat} {now : Int}
    {st : List (String × Int)} {p : String × Int}
    (h : p ∈ pruneLocked a e now st) : p ∈ st := by
  unfold pruneLocked at h
  split at h
  · exact h
  · dsimp only at h
    split at h
    · have := List.mem_of_mem_take h
      rw [List.mem_mergeSort] at this
      exact (List.mem_filter.mp this).1
    · exact (List.mem_filter.mp h).1

theorem mem_of_mem_markProcessed {s : ProcessedStore} {i : String}
    {now : Int} {p : String × Int} (h : p ∈ (markProcessed s i now).state) :
    p ∈ s.state ∨ p = (i, now) := by
  have h' := mem_of_mem_pruneLocked h
  unfold dictInsert at h'
  split at h'
  · rw [List.mem_map] at h'
    obtain ⟨q, hq, hqe⟩ := h'
    by_cases hk : q.1 = i
    · right
      simp only [hk, if_pos] at hqe
      exact hqe.symm
    · left
      simp only [hk, if_neg, not_false_iff] at hqe
      rwa [hqe] at hq
  · rw [List.mem_append] at h'
    rcases h' with h' | h'
    · exact Or.inl h'
    · right; simpa using h'

/-- Marking a fresh message id while the store is strictly below capacity
reduces to appending the entry and age-filtering: the `> max_entries`
sort-and-truncate branch cannot fire. -/
theorem markProcessed_state_of_capacity {s : ProcessedStore} {i : String}
    (now : Int) (h0 : isProcessed s i = false)
    (hcap : s.state.length < s.maxEntries) :
    (markProcessed s i now).state =
      (s.state ++ [(i, now)]).filter
        (fun p => isRecent p.2 (now - (s.maxAgeDays : Int))) := by
  have hins : dictInsert s.state i now = s.state ++ [(i, now)] :=
    dictInsert_of_not_processed (by simpa [isProcessed] using h0) now
  have hne : (s.state ++ [(i, now)]).isEmpty = false := by
    simp [List.isEmpty_iff]
  have hlen :
      ¬ ((s.state ++ [(i, now)]).filter
          (fun p => isRecent p.2 (now - (s.maxAgeDays : Int)))).length >
        s.maxEntries := by
    have h1 := List.length_filter_le
      (fun p : String × Int => isRecent p.2 (now - (s.maxAgeDays : Int)))
      (s.state ++ [(i, now)])
    have h2 : (s.state ++ [(i, now)]).length = s.state.length + 1 := by simp
    omega
  simp only [markProcessed, pruneLocked, hins, hne, Bool.false_eq_true,
    if_false]
  simp only [hlen, if_false]

/-- After marking a fresh id below capacity, that id's entry is present. -/
theorem self_mem_markProcessed {s : ProcessedStore} {i : String} (now : Int)
    (h0 : isProcessed s i = false) (hcap : s.state.length < s.maxEntries) :
    (i, now) ∈ (markProcessed s i now).state := by
  rw [markProcessed_state_of_capacity now h0 hcap]
  rw [List.mem_filter]
  refine ⟨by simp, ?_⟩
  simp only [isRecent, decide_eq_true_eq]
  have : (0 : Int) ≤ (s.maxAgeDays : Int) := Int.ofNat_nonneg _
  omega

/-- Marking a fresh id below capacity preserves every entry whose timestamp
is the current clock reading. -/
theorem mem_markProcessed_of_now {s : ProcessedStore} {i : String}
    {now : Int} {p : String × Int} (h0 : isProcessed s i = false)
    (hcap : s.state.length < s.maxEntries) (hp : p ∈ s.state)
    (hts : p.2 = now) : p ∈ (markProcessed s i now).state := by
  rw [markProcessed_state_of_capacity now h0 hcap]
  rw [List.mem_filter]
  refine ⟨List.mem_append_left _ hp, ?_⟩
  simp only [isRecent, decide_eq_true_eq, hts]
  have : (0 : Int) ≤ (s.maxAgeDays : Int) := Int.ofNat_nonneg _
  omega

/-- One `mark_processed` call grows the ledger by at most one entry. -/
theorem length_markProcessed_le (s : ProcessedStore) (i : String)
    (now : Int) :
    (markProcessed s i now).state.length ≤ s.state.length + 1 := by
  have hd : (dictInsert s.state i now).length ≤ s.state.length + 1 := by
    unfold dictInsert
    split
    · simp
    · simp
  unfold markProcessed pruneLocked
  dsimp only
  split
  · simpa using hd
  · split
    · rename_i hgt
      have h1 := List.length_take s.maxEntries
        (((dictInsert s.state i now).filter
          (fun p => isRecent p.2 (now - (s.maxAgeDays : Int)))).mergeSort
          (fun a b => decide (b.2 ≤ a.2)))
      have h2 := @List.length_mergeSort (String × Int)
        (fun a b => decide (b.2 ≤ a.2))
        ((dictInsert s.state i now).filter
          (fun p => isRecent p.2 (now - (s.maxAgeDays : Int))))
      have h3 := List.length_filter_le
        (fun p : String × Int => isRecent p.2 (now - (s.maxAgeDays : Int)))
        (dictInsert s.state i now)
      omega
    · have := List.length_filter_le
        (fun p : String × Int => isRecent p.2 (now - (s.maxAgeDays : Int)))
        (dictInsert s.state i now)
      omega

/-- A message id that is not in the ledger stays absent when a different id
is marked (`mark_processed` only adds its own id, pruning only removes). -/
theorem isProcessed_markProcessed_of_ne {s : ProcessedStore} {i j : String}
    (now : Int) (hne : j ≠ i) (hj : isProcessed s j = false) :
    isProcessed (markProcessed s i now) j = false := by
  simp only [isProcessed, List.any_eq_false] at hj ⊢
  intro p hp
  rcases mem_of_mem_markProcessed hp with h | h
  · exact hj p h
  · subst h
    simpa using fun hh => hne hh.symm

/-- Two sorted lists that are permutations of each other and strictly
descending in their timestamps are equal (Python's `sorted` output is
uniquely determined when the keys are distinct). -/
theorem eq_of_perm_of_sortedDesc :
    ∀ {l₁ l₂ : List (String × Int)}, l₁.Perm l₂ →
      l₁.Pairwise (fun a b => b.2 < a.2) →
      l₂.Pairwise (fun a b => b.2 < a.2) → l₁ = l₂
  | [], l₂, hp, _, _ => by simpa using hp.nil_eq
  | a :: t₁, [], hp, _, _ => by
      have := hp.length_eq
      simp at this
  | a :: t₁, b :: t₂, hp, h₁, h₂ => by
      have hab : a = b := by
        by_contra hne
        have ha : a ∈ b :: t₂ := hp.mem_iff.mp (List.mem_cons_self a t₁)
        have ha' : a ∈ t₂ := by
          rcases List.mem_cons.mp ha with h | h
          · exact absurd h hne
          · exact h
        have hb : b ∈ a :: t₁ := hp.mem_iff.mpr (List.mem_cons_self b t₂)
        have hb' : b ∈ t₁ := by
          rcases List.mem_cons.mp hb with h | h
          · exact absurd h.symm hne
          · exact h
        have h1 : b.2 < a.2 := (List.pairwise_cons.mp h₁).1 b hb'
        have h2 : a.2 < b.2 := (List.pairwise_cons.mp h₂).1 a ha'
        omega
      subst hab
      have hp' : t₁.Perm t₂ := hp.cons_inv
      have := eq_of_perm_of_sortedDesc hp' (List.pairwise_cons.mp h₁).2
        (List.pairwise_cons.mp h₂).2
      rw [this]

/-- The boolean comparison used to model
`sorted(items, key=lambda item: item[1], reverse=True)`. -/
def descByTs (a b : String × Int) : Bool := decide (b.2 ≤ a.2)

/-- `mergeSort` with `descByTs` yields a list sorted by weakly descending
timestamps. -/
theorem pairwise_mergeSort_descByTs (l : List (String × Int)) :
    (l.mergeSort descByTs).Pairwise (fun a b => b.2 ≤ a.2) := by
  have h := @List.sorted_mergeSort (String × Int) descByTs
    (fun a b c hab hbc => by
      simp only [descByTs, decide_eq_true_eq] at hab hbc ⊢
      omega)
    (fun a b => by
      simp only [descByTs]
      rcases le_total b.2 a.2 with h | h <;> simp [h]) l
  exact h.imp (fun hab => by simpa [descByTs] using hab)

/-- On a list with pairwise-distinct timestamps, the descending stable sort
is the unique strictly-descending rearrangement. -/
theorem mergeSort_descByTs_eq_of_target {l target : List (String × Int)}
    (hperm : l.Perm target)
    (htarget : target.Pairwise (fun a b => b.2 < a.2)) :
    l.mergeSort descByTs = target := by
  have hnd : target.Pairwise (fun a b => a.2 ≠ b.2) :=
    htarget.imp (fun h => by omega)
  have hperm' : (l.mergeSort descByTs).Perm target :=
    (List.mergeSort_perm l descByTs).trans hperm
  have hsorted : (l.mergeSort descByTs).Pairwise (fun a b => b.2 < a.2) := by
    have hw := pairwise_mergeSort_descByTs l
    have hnd' : (l.mergeSort descByTs).Pairwise (fun a b => a.2 ≠ b.2) :=
      (hperm'.pairwise_iff (fun h => Ne.symm h)).mpr hnd
    exact (hw.and hnd').imp (fun h => lt_of_le_of_ne h.1 (Ne.symm h.2))
  exact eq_of_perm_of_sortedDesc hperm' hsorted htarget

theorem applyMarks_append_singleton (s : ProcessedStore)
    (ms : List (String × Int)) (m : String × Int) :
    applyMarks s (ms ++ [m]) = markProcessed (applyMarks s ms) m.1 m.2 := by
  simp [applyMarks, List.foldl_append]

theorem applyMarks_maxAgeDays :
    ∀ (ms : List (String × Int)) (s : ProcessedStore),
      (applyMarks s ms).maxAgeDays = s.maxAgeDays
  | [], _ => rfl
  | m :: ms, s => by
      have h := applyMarks_maxAgeDays ms (markProcessed s m.1 m.2)
      simpa [applyMarks, markProcessed] using h

theorem applyMarks_maxEntries :
    ∀ (ms : List (String × Int)) (s : ProcessedStore),
      (applyMarks s ms).maxEntries = s.maxEntries
  | [], _ => rfl
  | m :: ms, s => by
      have h := applyMarks_maxEntries ms (markProcessed s m.1 m.2)
      simpa [applyMarks, markProcessed] using h

/-- Marking a strictly increasing, mutually recent sequence of distinct ids
into a fresh store leaves exactly the whole sequence while it fits, and the
newest `max_entries` marks (in descending order) once it does not. -/
theorem applyMarks_state (age E : Nat) :
    ∀ (marks : List (String × Int)),
      (marks.map Prod.fst).Nodup →
      marks.Pairwise (fun a b => a.2 < b.2) →
      (∀ p ∈ marks, ∀ q ∈ marks, p.2 - (age : Int) ≤ q.2) →
      (applyMarks (emptyStore age E) marks).state =
        if marks.length ≤ E then marks else marks.reverse.take E := by
  intro marks
  induction marks using List.reverseRecOn with
  | nil => intro _ _ _; simp [applyMarks, emptyStore]
  | append_singleton ms m ih =>
    intro hnodup hpw hwin
    have hnodup' : (ms.map Prod.fst).Nodup := by
      rw [List.map_append, List.nodup_append] at hnodup
      exact hnodup.1
    have hfresh : ∀ p ∈ ms, p.1 ≠ m.1 := by
      rw [List.map_append, List.nodup_append] at hnodup
      intro p hp hpe
      exact hnodup.2.2 (List.mem_map_of_mem Prod.fst hp) (by simp [hpe])
    have hpw' : ms.Pairwise (fun a b => a.2 < b.2) := by
      rw [List.pairwise_append] at hpw
      exact hpw.1
    have hlast : ∀ p ∈ ms, p.2 < m.2 := by
      rw [List.pairwise_append] at hpw
      intro p hp
      exact hpw.2.2 p hp m (by simp)
    have hwin' : ∀ p ∈ ms, ∀ q ∈ ms, p.2 - (age : Int) ≤ q.2 := by
      intro p hp q hq
      exact hwin p (List.mem_append_left _ hp) q (List.mem_append_left _ hq)
    have hS := ih hnodup' hpw' hwin'
    set S := (applyMarks (emptyStore age E) ms).state with hSdef
    have hSsub : ∀ p ∈ S, p ∈ ms := by
      intro p hp
      rw [hS] at hp
      split at hp
      · exact hp
      · exact List.mem_reverse.mp (List.mem_of_mem_take hp)
    have hSrec : ∀ p ∈ S ++ [m], isRecent p.2 (m.2 - (age : Int)) = true := by
      intro p hp
      simp only [isRecent, decide_eq_true_eq]
      rcases List.mem_append.mp hp with h | h
      · exact hwin m (List.mem_append_right _ (by simp)) p
          (List.mem_append_left _ (hSsub p h))
      · simp only [List.mem_singleton] at h
        subst h
        omega
    have hproc : (S.any (fun p => p.1 = m.1)) = false := by
      rw [List.any_eq_false]
      intro p hp
      simpa using hfresh p (hSsub p hp)
    have hins : dictInsert S m.1 m.2 = S ++ [m] := by
      rw [dictInsert_of_not_processed hproc]
    have hstep : (applyMarks (emptyStore age E) (ms ++ [m])).state =
        pruneLocked age E m.2 (S ++ [m]) := by
      rw [applyMarks_append_singleton]
      simp only [markProcessed, applyMarks_maxAgeDays, applyMarks_maxEntries,
        emptyStore_maxAgeDays, emptyStore_maxEntries, ← hSdef, hins]
    have hfilter : (S ++ [m]).filter
        (fun p => isRecent p.2 (m.2 - (age : Int))) = S ++ [m] :=
      List.filter_eq_self.mpr hSrec
    have hprune : pruneLocked age E m.2 (S ++ [m]) =
        if (S ++ [m]).length > E then
          ((S ++ [m]).mergeSort descByTs).take E
        else S ++ [m] := by
      unfold pruneLocked
      have hne : (S ++ [m]).isEmpty = false := by simp
      simp only [hne, Bool.false_eq_true, if_false, hfilter]
      rfl
    rw [hstep, hprune]
    rcases Nat.lt_trichotomy ms.length E with hms | hms | hms
    · -- still below capacity: nothing is dropped, order is insertion order
      have hS' : S = ms := by
        rw [hS, if_pos (Nat.le_of_lt hms)]
      have hlen : ¬ (S ++ [m]).length > E := by
        rw [hS']
        simp only [List.length_append, List.length_singleton]
        omega
      rw [if_neg hlen, hS',
        if_pos (by simp only [List.length_append, List.length_singleton]; omega)]
    · -- exactly at capacity: the sort fires for the first time and the
      -- whole list is reversed into descending order, then truncated
      have hS' : S = ms := by
        rw [hS, if_pos (Nat.le_of_eq hms)]
      have hlen : (S ++ [m]).length > E := by
        rw [hS']
        simp only [List.length_append, List.length_singleton]
        omega
      rw [if_pos hlen, hS']
      have hsort : (ms ++ [m]).mergeSort descByTs = (ms ++ [m]).reverse := by
        apply mergeSort_descByTs_eq_of_target
        · exact (List.reverse_perm _).symm
        · rw [List.pairwise_reverse]
          exact hpw
      rw [hsort,
        if_neg (by simp only [List.length_append, List.length_singleton]; omega)]
    · -- above capacity: the invariant list is already descending and the
      -- new mark is the strict maximum, so sorting conses it in front
      have hS' : S = ms.reverse.take E := by
        rw [hS, if_neg (by omega)]
      have hSlen : S.length = E := by
        rw [hS', List.length_take, List.length_reverse]
        omega
      have hlen : (S ++ [m]).length > E := by
        simp only [List.length_append, List.length_singleton, hSlen]
        omega
      rw [if_pos hlen]
      have hSdesc : S.Pairwise (fun a b => b.2 < a.2) := by
        rw [hS']
        exact (List.pairwise_reverse.mpr hpw').sublist (List.take_sublist _ _)
      have hsort : (S ++ [m]).mergeSort descByTs = m :: S := by
        apply mergeSort_descByTs_eq_of_target
        · exact List.perm_append_singleton m S
        · rw [List.pairwise_cons]
          exact ⟨fun p hp => hlast p (hSsub p hp), hSdesc⟩
      rw [hsort,
        if_neg (by simp only [List.length_append, List.length_singleton]; omega)]
      rw [List.reverse_append, List.reverse_singleton, List.singleton_append]
      rw [hS']
      cases E with
      | zero => simp
      | succ E' =>
        rw [List.take_succ_cons, List.take_succ_cons, List.take_take,
          Nat.min_eq_left (Nat.le_succ E')]

theorem dictInsert_ne_nil (st : List (String × Int)) (k : String) (v : Int) :
    dictInsert st k v ≠ [] := by
  unfold dictInsert
  split
  · rename_i h
    intro hnil
    rcases List.any_eq_true.mp h with ⟨p, hp, _⟩
    rw [List.map_eq_nil_iff] at hnil
    rw [hnil] at hp
    exact absurd hp (List.not_mem_nil p)
  · simp

theorem recent_of_mem_pruneLocked {a e : Nat} {now : Int}
    {st : List (String × Int)} {p : String × Int}
    (hne : st ≠ []) (h : p ∈ pruneLocked a e now st) :
    now - (a : Int) ≤ p.2 := by
  unfold pruneLocked at h
  have hne' : st.isEmpty = false := by
    cases st with
    | nil => exact absurd rfl hne
    | cons a t => rfl
  simp only [hne', Bool.false_eq_true, if_false] at h
  have hfilter : p ∈ st.filter (fun q => isRecent q.2 (now - (a : Int))) := by
    split at h
    · have := List.mem_of_mem_take h
      rwa [List.mem_mergeSort] at this
    · exact h
  have := (List.mem_filter.mp hfilter).2
  simpa [isRecent] using this

/-- **C2.** `mark_processed` pruning policy.  First part: after any
`mark_processed` call no entry older than `max_age_days` remains, and when
more than `max_entries` age-eligible entries would remain, exactly
`max_entries` entries are kept and every dropped entry's timestamp is at
most every kept entry's timestamp (newest kept, oldest dropped first).
Second part: marking `max_entries + k` (k > 0) distinct recent ids into a
fresh ledger leaves exactly the `max_entries` most-recently-marked entries. -/
theorem processed_store_prune_policy :
    (∀ (s : ProcessedStore) (i : String) (now : Int),
      (∀ p ∈ (markProcessed s i now).state,
          now - (s.maxAgeDays : Int) ≤ p.2) ∧
      (((dictInsert s.state i now).filter
          (fun p => isRecent p.2 (now - (s.maxAgeDays : Int)))).length >
            s.maxEntries →
        (markProcessed s i now).state.length = s.maxEntries ∧
        ∃ dropped,
          ((dictInsert s.state i now).filter
            (fun p => isRecent p.2 (now - (s.maxAgeDays : Int)))).Perm
              ((markProcessed s i now).state ++ dropped) ∧
          ∀ p ∈ (markProcessed s i now).state, ∀ q ∈ dropped,
            q.2 ≤ p.2)) ∧
    (∀ (age E : Nat) (marks : List (String × Int)),
      (marks.map Prod.fst).Nodup →
      marks.Pairwise (fun a b => a.2 < b.2) →
      (∀ p ∈ marks, ∀ q ∈ marks, p.2 - (age : Int) ≤ q.2) →
      marks.length > E →
      (applyMarks (emptyStore age E) marks).state.length = E ∧
      (applyMarks (emptyStore age E) marks).state =
        marks.reverse.take E) := by
  constructor
  · intro s i now
    constructor
    · intro p hp
      exact recent_of_mem_pruneLocked (dictInsert_ne_nil s.state i now) hp
    · intro hgt
      have hne : (dictInsert s.state i now).isEmpty = false := by
        rcases hd : dictInsert s.state i now with _ | ⟨a, t⟩
        · exact absurd hd (dictInsert_ne_nil s.state i now)
        · rfl
      have hstate : (markProcessed s i now).state =
          (((dictInsert s.state i now).filter
            (fun p => isRecent p.2 (now - (s.maxAgeDays : Int)))).mergeSort
              descByTs).take s.maxEntries := by
        simp only [markProcessed, pruneLocked, hne, Bool.false_eq_true,
          if_false]
        rw [if_pos hgt]
        rfl
      set f := (dictInsert s.state i now).filter
        (fun p => isRecent p.2 (now - (s.maxAgeDays : Int))) with hf
      refine ⟨?_, (f.mergeSort descByTs).drop s.maxEntries, ?_, ?_⟩
      · rw [hstate, List.length_take]
        have : (f.mergeSort descByTs).length = f.length :=
          List.length_mergeSort f
        omega
      · rw [hstate]
        rw [List.take_append_drop]
        exact (List.mergeSort_perm f descByTs).symm
      · intro p hp q hq
        rw [hstate] at hp
        have hpw := pairwise_mergeSort_descByTs f
        rw [← List.take_append_drop s.maxEntries (f.mergeSort descByTs)]
          at hpw
        rw [List.pairwise_append] at hpw
        exact hpw.2.2 p hp q hq
  · intro age E marks hnodup hpw hwin hgt
    have h := applyMarks_state age E marks hnodup hpw hwin
    rw [if_neg (by omega)] at h
    refine ⟨?_, h⟩
    rw [h, List.length_take, List.length_reverse]
    omega

/-- Witness for `processed_store_prune_policy`: a store at `max_entries = 1`
over-fills on a mark (part one), and three strictly increasing recent marks
into a fresh `max_entries = 2` ledger keep exactly the last two (part two). -/
theorem processed_store_prune_policy_witness :
    (((dictInsert (⟨100, 1, [("a", 5)]⟩ : ProcessedStore).state "b" 6).filter
        (fun p => isRecent p.2
          (6 - (((⟨100, 1, [("a", 5)]⟩ : ProcessedStore).maxAgeDays : Nat) :
            Int)))).length > 1 ∧
      (markProcessed (⟨100, 1, [("a", 5)]⟩ : ProcessedStore) "b" 6).state.length
        = 1) ∧
    ((([("a", (0 : Int)), ("b", 1), ("c", 2)].map Prod.fst).Nodup ∧
        [("a", (0 : Int)), ("b", 1), ("c", 2)].length > 2) ∧
      (applyMarks (emptyStore 100 2) [("a", 0), ("b", 1), ("c", 2)]).state =
        [("a", (0 : Int)), ("b", 1), ("c", 2)].reverse.take 2) :=
  ⟨⟨by decide,
      (((processed_store_prune_policy.1
        (⟨100, 1, [("a", 5)]⟩ : ProcessedStore) "b" 6).2) (by decide)).1⟩,
    ⟨⟨by decide, by decide⟩,
      (processed_store_prune_policy.2 100 2
        [("a", 0), ("b", 1), ("c", 2)] (by decide)
        (by decide)
        (by decide) (by decide)).2⟩⟩

/-- **C8.** For every ledger state and message id, `reset()` followed by
`is_processed` yields `false`: resetting invalidates all suppression
markers. -/
theorem reset_clears_membership (s : ProcessedStore) (m : String) :
    isProcessed (resetStore s) m = false := by
  simp [isProcessed, resetStore]

/-- **C9.** `is_processed` is a pure read: it consults only current
membership, so an entry whose timestamp is already older than the
`max_age_days` window still answers `true` on every query (pruning happens
only inside `mark_processed`; only writes change membership). -/
theorem is_processed_ignores_age (s : ProcessedStore) (m : String)
    (ts now : Int) (hmem : (m, ts) ∈ s.state)
    (hstale : ts < now - (s.maxAgeDays : Int)) :
    isProcessed s m = true := by
  rw [isProcessed, List.any_eq_true]
  exact ⟨(m, ts), hmem, by simp⟩

/-! ## `email/rules.py`: `RuleManager._load` -/

/-- JSON values, as produced by `json.loads`. -/
inductive JVal where
  | null : JVal
  | bool (b : Bool) : JVal
  | num (n : Int) : JVal
  | str (s : String) : JVal
  | arr (elems : List JVal) : JVal
  | obj (fields : List (String × JVal)) : JVal

/-- Python `dict.setdefault(k, v)`: append the binding at the end only when
the key is absent. -/
def setdefault (fields : List (String × JVal)) (k : String) (v : JVal) :
    List (String × JVal) :=
  if fields.any (fun p => p.1 = k) then fields else fields ++ [(k, v)]

/-- The default state `{"automation_enabled": default_enabled, "rules": []}`. -/
def defaultRuleState (defaultEnabled : Bool) : List (String × JVal) :=
  [("automation_enabled", JVal.bool defaultEnabled), ("rules", JVal.arr [])]

/-- `RuleManager._load`.  The storage file is modelled as
`none` (file does not exist), `some none` (unreadable or invalid JSON:
`json.loads` raises and the `except` branch fires), or `some (some v)`
(parsed JSON value).  A parsed value that is not an object has no
`setdefault` attribute, so the `except Exception` branch also returns the
default state for it. -/
def ruleManagerLoad (defaultEnabled : Bool) (file : Option (Option JVal)) :
    List (String × JVal) :=
  match file with
  | none => defaultRuleState defaultEnabled
  | some none => defaultRuleState defaultEnabled
  | some (some (JVal.obj fields)) =>
      setdefault (setdefault fields "automation_enabled"
        (JVal.bool defaultEnabled)) "rules" (JVal.arr [])
  | some (some _) => defaultRuleState defaultEnabled

/-- First-occurrence key access on the field list of a JSON object (Python
dict access). -/
def jsonGet (fields : List (String × JVal)) (k : String) : Option JVal :=
  match fields with
  | [] => none
  | p :: t => if p.1 = k then some p.2 else jsonGet t k

theorem jsonGet_nil (k : String) : jsonGet [] k = none := rfl

theorem jsonGet_cons (p : String × JVal) (t : List (String × JVal))
    (k : String) :
    jsonGet (p :: t) k = if p.1 = k then some p.2 else jsonGet t k := rfl

theorem jsonGet_isSome_of_any {fields : List (String × JVal)} {k : String}
    (h : fields.any (fun p => p.1 = k) = true) :
    ∃ w, jsonGet fields k = some w := by
  induction fields with
  | nil => simp at h
  | cons p t ih =>
    by_cases hpk : p.1 = k
    · exact ⟨p.2, by rw [jsonGet_cons, if_pos hpk]⟩
    · cases ht : t.any (fun p => p.1 = k) with
      | true =>
        obtain ⟨w, hw⟩ := ih ht
        exact ⟨w, by rw [jsonGet_cons, if_neg hpk]; exact hw⟩
      | false =>
        exfalso
        rw [List.any_cons, ht] at h
        simp [hpk] at h

theorem jsonGet_eq_none_of_not_any {fields : List (String × JVal)}
    {k : String} (h : fields.any (fun p => p.1 = k) = false) :
    jsonGet fields k = none := by
  induction fields with
  | nil => rfl
  | cons p t ih =>
    rw [List.any_cons] at h
    have h' := Bool.or_eq_false_iff.mp h
    have hpk : ¬ p.1 = k := by simpa using h'.1
    rw [jsonGet_cons, if_neg hpk]
    exact ih h'.2

theorem jsonGet_append_singleton_of_none {fields : List (String × JVal)}
    {k : String} (h : jsonGet fields k = none) (v : JVal) :
    jsonGet (fields ++ [(k, v)]) k = some v := by
  induction fields with
  | nil => rw [List.nil_append, jsonGet_cons, if_pos rfl]
  | cons p t ih =>
    by_cases hpk : p.1 = k
    · rw [jsonGet_cons, if_pos hpk] at h
      cases h
    · rw [jsonGet_cons, if_neg hpk] at h
      rw [List.cons_append, jsonGet_cons, if_neg hpk]
      exact ih h

theorem jsonGet_append_singleton_other (fields : List (String × JVal))
    {k k' : String} (hne : k' ≠ k) (v : JVal) :
    jsonGet (fields ++ [(k, v)]) k' = jsonGet fields k' := by
  induction fields with
  | nil =>
    rw [List.nil_append, jsonGet_cons, if_neg (fun h => hne h.symm)]
  | cons p t ih =>
    by_cases hpk : p.1 = k'
    · rw [List.cons_append, jsonGet_cons, if_pos hpk, jsonGet_cons,
        if_pos hpk]
    · rw [List.cons_append, jsonGet_cons, if_neg hpk, jsonGet_cons,
        if_neg hpk]
      exact ih

theorem jsonGet_setdefault_self (fields : List (String × JVal)) (k : String)
    (v : JVal) :
    jsonGet (setdefault fields k v) k = some ((jsonGet fields k).getD v) := by
  unfold setdefault
  cases h : fields.any (fun p => p.1 = k) with
  | false =>
    rw [if_neg (by simp [h])]
    rw [jsonGet_eq_none_of_not_any h]
    exact jsonGet_append_singleton_of_none (jsonGet_eq_none_of_not_any h) v
  | true =>
    rw [if_pos (by simp [h])]
    obtain ⟨w, hw⟩ := jsonGet_isSome_of_any h
    rw [hw]
    rfl

theorem jsonGet_setdefault_other (fields : List (String × JVal))
    {k k' : String} (hne : k' ≠ k) (v : JVal) :
    jsonGet (setdefault fields k v) k' = jsonGet fields k' := by
  unfold setdefault
  split
  · rfl
  · exact jsonGet_append_singleton_other fields hne v

/-- **C6.** `RuleManager._load` never raises (it is total here): a missing,
unreadable, unparseable, or wrongly-shaped storage file yields the default
state `{automation_enabled: default, rules: []}`, and a parsed JSON object
keeps its values with missing keys filled in by the defaults. -/
theorem rule_manager_load_defaults (defaultEnabled : Bool)
    (file : Option (Option JVal)) :
    ((∀ fields, file ≠ some (some (JVal.obj fields))) →
      ruleManagerLoad defaultEnabled file = defaultRuleState defaultEnabled) ∧
    (∀ fields, file = some (some (JVal.obj fields)) →
      jsonGet (ruleManagerLoad defaultEnabled file) "automation_enabled" =
        some ((jsonGet fields "automation_enabled").getD
          (JVal.bool defaultEnabled)) ∧
      jsonGet (ruleManagerLoad defaultEnabled file) "rules" =
        some ((jsonGet fields "rules").getD (JVal.arr []))) := by
  constructor
  · intro hnotobj
    match file with
    | none => rfl
    | some none => rfl
    | some (some JVal.null) => rfl
    | some (some (JVal.bool b)) => rfl
    | some (some (JVal.num n)) => rfl
    | some (some (JVal.str s)) => rfl
    | some (some (JVal.arr xs)) => rfl
    | some (some (JVal.obj fields)) => exact absurd rfl (hnotobj fields)
  · intro fields hfile
    subst hfile
    constructor
    · show jsonGet (setdefault (setdefault fields "automation_enabled"
        (JVal.bool defaultEnabled)) "rules" (JVal.arr []))
          "automation_enabled" = _
      rw [jsonGet_setdefault_other _ (by decide) _,
        jsonGet_setdefault_self]
    · show jsonGet (setdefault (setdefault fields "automation_enabled"
        (JVal.bool defaultEnabled)) "rules" (JVal.arr [])) "rules" = _
      rw [jsonGet_setdefault_self,
        jsonGet_setdefault_other _ (by decide) _]

/-- Witness for `rule_manager_load_defaults`: a missing file loads the
default state, and a parsed object `{"rules": 7}` keeps its `rules` value
and gains the default `automation_enabled`. -/
theorem rule_manager_load_defaults_witness :
    ((∀ fields,
        (none : Option (Option JVal)) ≠ some (some (JVal.obj fields))) ∧
      ruleManagerLoad true none = defaultRuleState true) ∧
    ((some (some (JVal.obj [("rules", JVal.num 7)])) :
        Option (Option JVal)) = some (some (JVal.obj [("rules", JVal.num 7)])) ∧
      jsonGet (ruleManagerLoad false
          (some (some (JVal.obj [("rules", JVal.num 7)]))))
          "automation_enabled" =
        some ((jsonGet [("rules", JVal.num 7)] "automation_enabled").getD
          (JVal.bool false))) :=
  ⟨⟨fun _ h => Option.noConfusion h,
      (rule_manager_load_defaults true none).1
        (fun _ h => Option.noConfusion h)⟩,
    ⟨rfl,
      ((rule_manager_load_defaults false
        (some (some (JVal.obj [("rules", JVal.num 7)])))).2
        [("rules", JVal.num 7)] rfl).1⟩⟩

/-! ## `api.py`: automation logs (`_load_persisted_logs`,
`get_automation_logs`)

Timestamps are again integers in days; `timestamp = none` models a log
entry whose timestamp string `_coerce_datetime` cannot parse (such entries
are filtered out before the sort, so the sort key `x.get('timestamp', '')`
only ever compares parseable timestamps, where the lexicographic string
order agrees with the integer order). -/

/-- `LOG_RETENTION_DAYS = 7`. -/
def LOG_RETENTION_DAYS : Int := 7

/-- A persisted automation log entry. -/
structure LogEntry where
  id : String
  timestamp : Option Int
  level : String
  message : String
  deriving Repr, DecidableEq

/-- The filter `_coerce_datetime(log.get('timestamp')) and ts >= cutoff`
applied by both `_load_persisted_logs` and `get_automation_logs`. -/
def tsAtLeast (cutoff : Int) (l : LogEntry) : Bool :=
  match l.timestamp with
  | some ts => decide (cutoff ≤ ts)
  | none => false

/-- `_load_persisted_logs()`: the storage file is `none` (missing),
`some none` (unreadable or invalid JSON: returns `[]` with a warning), or
`some (some logs)` (parsed); parsed entries older than the retention window
or with unparseable timestamps are dropped. -/
def loadPersistedLogs (now : Int) (file : Option (Option (List LogEntry))) :
    List LogEntry :=
  match file with
  | none => []
  | some none => []
  | some (some logs) => logs.filter (tsAtLeast (now - LOG_RETENTION_DAYS))

/-- The comparison modelling
`filtered.sort(key=lambda x: x.get('timestamp', ''), reverse=True)` on
entries that all carry parseable timestamps. -/
def descByLogTs (a b : LogEntry) : Bool :=
  decide (b.timestamp.getD 0 ≤ a.timestamp.getD 0)

/-- Response of the `/automation/logs` route (`get_automation_logs`). -/
structure LogsResponse where
  logs : List LogEntry
  total : Nat
  retentionDays : Int
  queryDays : Int
  deriving Repr, DecidableEq

/-- `get_automation_logs(request, days, limit)` at clock reading `now`:
clamp `days` into `[1, LOG_RETENTION_DAYS]`, load persisted entries, filter
to the window, sort newest first, and truncate to
`max(1, min(limit, 500))` entries. -/
def getAutomationLogs (now : Int) (file : Option (Option (List LogEntry)))
    (days limit : Int) : LogsResponse :=
  let days := min (max 1 days) LOG_RETENTION_DAYS
  let cutoff := now - days
  let allLogs := loadPersistedLogs now file
  let filtered := allLogs.filter (tsAtLeast cutoff)
  let sortedLogs := filtered.mergeSort descByLogTs
  let capped := sortedLogs.take (max 1 (min limit 500)).toNat
  { logs := capped
    total := filtered.length
    retentionDays := LOG_RETENTION_DAYS
    queryDays := days }

theorem pairwise_mergeSort_descByLogTs (l : List LogEntry) :
    (l.mergeSort descByLogTs).Pairwise
      (fun a b => b.timestamp.getD 0 ≤ a.timestamp.getD 0) := by
  have h := @List.sorted_mergeSort LogEntry descByLogTs
    (fun a b c hab hbc => by
      simp only [descByLogTs, decide_eq_true_eq] at hab hbc ⊢
      omega)
    (fun a b => by
      simp only [descByLogTs]
      rcases le_total (b.timestamp.getD 0) (a.timestamp.getD 0) with h | h <;>
        simp [h]) l
  exact h.imp (fun hab => by simpa [descByLogTs] using hab)

/-- **C7 (amended).** Every returned log entry has a parseable timestamp
within the retention window (the look-back is clamped to
`LOG_RETENTION_DAYS`, so even `days = retention + 10` returns nothing older
than the retention window); the entries are sorted newest first; and at
most `max 1 (min limit 500)` entries are returned.  (The original claim's
bound `min limit 500` fails for `limit ≤ 0`, where the route clamps the
limit up to 1; see the counterexample.) -/
theorem logs_query_clamped_sorted_capped (now : Int)
    (file : Option (Option (List LogEntry))) (days limit : Int) :
    (∀ l ∈ (getAutomationLogs now file days limit).logs,
      ∃ ts, l.timestamp = some ts ∧ now - LOG_RETENTION_DAYS ≤ ts) ∧
    (getAutomationLogs now file days limit).logs.Pairwise
      (fun a b => b.timestamp.getD 0 ≤ a.timestamp.getD 0) ∧
    (getAutomationLogs now file days limit).logs.length ≤
      (max 1 (min limit 500)).toNat := by
  refine ⟨?_, ?_, ?_⟩
  · intro l hl
    simp only [getAutomationLogs] at hl
    have hl' := List.mem_of_mem_take hl
    rw [List.mem_mergeSort] at hl'
    have hts := (List.mem_filter.mp hl').2
    unfold tsAtLeast at hts
    rcases hcase : l.timestamp with _ | ts
    · rw [hcase] at hts
      cases hts
    · refine ⟨ts, rfl, ?_⟩
      rw [hcase] at hts
      simp only [decide_eq_true_eq] at hts
      have hdays : min (max 1 days) LOG_RETENTION_DAYS ≤ LOG_RETENTION_DAYS :=
        min_le_right _ _
      omega
  · simp only [getAutomationLogs]
    exact (pairwise_mergeSort_descByLogTs _).sublist (List.take_sublist _ _)
  · simp only [getAutomationLogs]
    exact List.length_take_le _ _

/-- Counterexample to **C7** as stated: with one retained log entry and
`limit = 0`, the route returns 1 entry, exceeding the claimed bound
`min limit 500 = 0` (the limit is clamped below by `max(1, ...)`). -/
theorem logs_limit_zero_counterexample :
    (getAutomationLogs 10
        (some (some [⟨"e1", some 10, "info", "x"⟩]))
        (LOG_RETENTION_DAYS + 10) 0).logs.length = 1 ∧
    ¬ ((getAutomationLogs 10
        (some (some [⟨"e1", some 10, "info", "x"⟩]))
        (LOG_RETENTION_DAYS + 10) 0).logs.length ≤
      (min (0 : Int) 500).toNat) := by
  have h : (getAutomationLogs 10
      (some (some [⟨"e1", some 10, "info", "x"⟩]))
      (LOG_RETENTION_DAYS + 10) 0).logs.length = 1 := by
    simp only [getAutomationLogs]
    rw [List.length_take, List.length_mergeSort]
    decide
  exact ⟨h, by rw [h]; decide⟩

/-- **C10.** The logs query clamps below as well as above: a request with
`limit ≤ 0` behaves exactly like `limit = 1` (so one entry is still
returned whenever any log matches), and a request with `days ≤ 0` behaves
exactly like `days = 1`. -/
theorem logs_lower_clamps (now : Int)
    (file : Option (Option (List LogEntry))) (days limit : Int) :
    (limit ≤ 0 →
      getAutomationLogs now file days limit =
        getAutomationLogs now file days 1 ∧
      (0 < (getAutomationLogs now file days limit).total →
        (getAutomationLogs now file days limit).logs.length = 1)) ∧
    (days ≤ 0 →
      getAutomationLogs now file days limit =
        getAutomationLogs now file 1 limit) := by
  constructor
  · intro hlim
    have hcap : max 1 (min limit 500) = max 1 (min (1 : Int) 500) := by omega
    constructor
    · simp only [getAutomationLogs, hcap]
    · intro htotal
      simp only [getAutomationLogs] at htotal ⊢
      rw [List.length_take, List.length_mergeSort]
      have hone : (max 1 (min limit 500)).toNat = 1 := by omega
      rw [hone]
      omega
  · intro hdays
    have hd : min (max 1 days) LOG_RETENTION_DAYS =
        min (max 1 (1 : Int)) LOG_RETENTION_DAYS := by
      simp only [LOG_RETENTION_DAYS]
      omega
    simp only [getAutomationLogs, hd]

/-- Witness for `logs_lower_clamps`: with one matching entry and
`limit = -5`, `days = 0`, exactly one entry is returned. -/
theorem logs_lower_clamps_witness :
    ((-5 : Int) ≤ 0 ∧ (0 : Int) ≤ 0) ∧
    (0 < (getAutomationLogs 2
        (some (some [⟨"e1", some 2, "info", "x"⟩])) 0 (-5)).total →
      (getAutomationLogs 2
        (some (some [⟨"e1", some 2, "info", "x"⟩])) 0 (-5)).logs.length = 1) ∧
    getAutomationLogs 2 (some (some [⟨"e1", some 2, "info", "x"⟩])) 0 (-5) =
      getAutomationLogs 2 (some (some [⟨"e1", some 2, "info", "x"⟩])) 1 (-5) :=
  ⟨⟨by decide, by decide⟩,
    ((logs_lower_clamps 2 (some (some [⟨"e1", some 2, "info", "x"⟩])) 0
      (-5)).1 (by decide)).2,
    (logs_lower_clamps 2 (some (some [⟨"e1", some 2, "info", "x"⟩])) 0
      (-5)).2 (by decide)⟩

/-- Witness for `is_processed_ignores_age`: a store whose single entry is 40
days old with a 30-day window still reports the id as processed. -/
theorem is_processed_ignores_age_witness :
    ((("m1", (0 : Int)) ∈ (⟨30, 2000, [("m1", 0)]⟩ : ProcessedStore).state) ∧
      (0 : Int) < 40 - ((30 : Nat) : Int)) ∧
    isProcessed (⟨30, 2000, [("m1", 0)]⟩ : ProcessedStore) "m1" = true :=
  ⟨⟨by decide, by decide⟩,
    is_processed_ignores_age ⟨30, 2000, [("m1", 0)]⟩ "m1" 0 40 (by decide)
      (by decide)⟩

/-! ## `api.py`: the auto-label pipeline

The cycle `_auto_label_recent_emails` together with its callers
`_run_auto_label_pipeline`, `_trigger_automation_run`,
`update_automation_settings` and `_reset_processed_email_cache`.

External effects are oracles in an `Env`; mutable module state
(`RULE_MANAGER`, `PROCESSED_STORE`, `AUTOMATION_STATUS`, the log file) is a
`World` record threaded through the functions.  Ghost counters
(`evalCalls`, `applyCalls`, `sleeps`) and ghost event lists (`logEvents`,
`triggerEvents`) record the effects the claims talk about; they never
influence control flow. -/

/-- A rule dict from `RULE_MANAGER.get_state()['rules']`; `none` fields
model keys that `.get(...)` reports as absent/None. -/
structure Rule where
  id : Option String
  label : Option String
  reason : Option String
  labelId : Option String
  deriving Repr, DecidableEq

/-- An email payload dict (cache snapshot entry, fetched summary, or
`get_message` detail). -/
structure Email where
  id : Option String
  body : Option String
  html : Option String
  subject : Option String
  sender : Option String
  snippet : Option String
  deriving Repr, DecidableEq

/-- One entry of `evaluation['matches']`. -/
structure MatchItem where
  ruleId : Option String
  deriving Repr, DecidableEq

/-- Python truthiness of an optional string: `None` and `''` are falsy. -/
def truthy : Option String → Bool
  | none => false
  | some s => s ≠ ""

/-- Python `x or y` on an optional string versus a string default. -/
def orStr (a : Option String) (b : String) : String :=
  if truthy a then a.getD "" else b

/-- Python `x or y` on two plain strings (`''` is falsy). -/
def strOr (a b : String) : String :=
  if a = "" then b else a

/-- One `_append_automation_log` entry. -/
structure LogEvent where
  level : String
  message : String
  deriving Repr, DecidableEq

/-- The `AUTOMATION_STATUS` fields updated via `_update_automation_status`
(the in-memory `logs` copy is modelled by `World.logEvents`). -/
structure AutomationStatus where
  lastRunAt : Option Int
  lastError : Option String
  lastLabeled : Nat
  lastRefreshAt : Option Int
  deriving Repr, DecidableEq

/-- Ghost record of one `_trigger_automation_run` invocation: the context
string and the `PROCESSED_STORE` ledger contents at the moment of the
trigger. -/
structure TriggerEvent where
  context : String
  ledgerAtTrigger : List (String × Int)
  deriving Repr, DecidableEq

/-- Oracles and configuration for one cycle. -/
structure Env where
  /-- `LLM_CLIENT.evaluate_label_rules(...)` keyed by the message id
  (errors model raised exceptions, `ok none` models a response without a
  truthy `matches` key). -/
  evalRules : String → Except String (Option (List MatchItem))
  /-- `gmail_client.check_or_create_label(label_name)`. -/
  checkOrCreateLabel : String → Except String (Option String)
  /-- `gmail_client.apply_labels_to_message(message_id, labels)`. -/
  applyLabelsToMessage : String → List String → Except String Bool
  /-- `gmail_client.get_message(message_id)` (`none` is a falsy result). -/
  getMessage : String → Option Email
  /-- `settings.AUTO_LABEL_MAX_PER_CYCLE`. -/
  maxPerCycle : Int
  /-- `settings.AUTO_LABEL_REQUEST_INTERVAL_SECONDS` (the float abstracted
  to an integer; the code only tests it for zero after clamping). -/
  intervalSeconds : Int
  /-- The candidate list (the cache snapshot when `used_cache`, otherwise
  the result of `fetch_emails_since`); the lookback/limit plumbing that
  produces it is not observed by any claim. -/
  candidates : List Email
  /-- Whether `_load_cached_recent_emails` returned a non-empty snapshot. -/
  usedCache : Bool
  /-- `gmail_client is not None and gmail_client.service is not None`. -/
  gmailAvailable : Bool
  /-- The cycle's clock reading, used as `mark_processed` timestamp. -/
  now : Int

/-- The mutable module state touched by the pipeline. -/
structure World where
  automationEnabled : Bool
  mgrRules : List Rule
  processed : ProcessedStore
  status : AutomationStatus
  logEvents : List LogEvent
  evalCalls : Nat
  applyCalls : Nat
  sleeps : Nat
  triggerEvents : List TriggerEvent

/-- `_append_automation_log(message, level)`: ghost-append one entry. -/
def appendLog (w : World) (level message : String) : World :=
  { w with logEvents := w.logEvents ++ [⟨level, message⟩] }

/-- `if delay_seconds: time.sleep(delay_seconds)` (ghost counter). -/
def sleepIf (delay : Int) (w : World) : World :=
  if delay ≠ 0 then { w with sleeps := w.sleeps + 1 } else w

/-- `RuleManager.update_rule(rule_id, label_id=label_id)`: update the first
matching rule; `None` fields are skipped. -/
def updateRuleLabelId : List Rule → String → Option String → List Rule
  | [], _, _ => []
  | r :: rest, rid, lid =>
      if r.id = some rid then
        { r with labelId := if lid.isSome then lid else r.labelId } :: rest
      else r :: updateRuleLabelId rest rid lid

def cacheCandidatesMsg (n : Nat) : String :=
  "自动化使用本地缓存，共 " ++ toString n ++ " 封候选邮件。"

def noCandidatesMsg : String :=
  "自动化跳过：没有可用的缓存邮件，也无法从远程获取。"

def startProcessingMsg (displayName : String) : String :=
  "开始处理邮件「" ++ displayName ++ "」"

def llmFailedMsg (mid err : String) : String :=
  "LLM 失败（" ++ mid ++ "）：" ++ err

def labelDoneMsg (subjectOrId : String) (matchCount : Nat) : String :=
  "完成邮件「" ++ subjectOrId ++ "」的标签：" ++ toString matchCount ++
    " 条规则匹配"

def skipDisabledMsg (context : String) : String :=
  "自动化（" ++ context ++ "）跳过：功能已关闭。"

def runDoneMsg (context : String) (n : Nat) : String :=
  "自动化运行（" ++ context ++ "）完成，处理 " ++ toString n ++ " 封邮件。"

def gmailUnavailableMsg (context : String) : String :=
  "自动化（" ++ context ++ "）跳过：Gmail 凭据不可用。"

def toggleMsg (enabled : Bool) : String :=
  if enabled then "自动化现已开启" else "自动化现已关闭"

def resetCacheMsg (reason : String) : String :=
  reason ++ "：已清空已处理邮件缓存"

/-- The `detail` resolution in `_auto_label_recent_emails`: use the payload
unless it carries neither a truthy `body` nor a truthy `html`, in which case
fall back to `get_message(message_id) or email_payload`. -/
def resolveDetail (env : Env) (c : Email) : Email :=
  if truthy c.body || truthy c.html then c
  else
    match env.getMessage (c.id.getD "") with
    | some d => d
    | none => c

/-- `body = detail.get('html') or detail.get('body') or detail.get('snippet') or ''`. -/
def candidateBody (env : Env) (c : Email) : String :=
  let d := resolveDetail env c
  orStr d.html (orStr d.body (orStr d.snippet ""))

/-- `subject = detail.get('subject') or email_payload.get('subject') or ''`. -/
def candidateSubject (env : Env) (c : Email) : String :=
  let d := resolveDetail env c
  orStr d.subject (orStr c.subject "")

/-- `sender = detail.get('from') or email_payload.get('from') or ''`. -/
def candidateSender (env : Env) (c : Email) : String :=
  let d := resolveDetail env c
  orStr d.sender (orStr c.sender "")

/-- `snippet = detail.get('snippet') or email_payload.get('snippet') or ''`. -/
def candidateSnippet (env : Env) (c : Email) : String :=
  let d := resolveDetail env c
  orStr d.snippet (orStr c.snippet "")

/-- `display_name = (subject or snippet or sender or message_id or '')[:80]`. -/
def displayName (env : Env) (c : Email) : String :=
  (strOr (candidateSubject env c) (strOr (candidateSnippet env c)
    (strOr (candidateSender env c) (strOr (c.id.getD "") "")))).take 80

/-- Python `str.strip()`: drop leading and trailing whitespace.  (This is
the same operation as `String.trim`, but defined by structural recursion on
the character list so that concrete instances compute.) -/
def pyStrip (s : String) : String :=
  ⟨((s.data.dropWhile Char.isWhitespace).reverse.dropWhile
    Char.isWhitespace).reverse⟩

/-- The body of the inner `for match in matches` loop: resolve the rule,
ensure the label, maybe persist the discovered label id, and apply the
label, returning the updated world state and the `success` flag. -/
def processMatch (env : Env) (rules : List Rule) (mid : String) (w : World)
    (m : MatchItem) : World × Bool :=
  if ¬ truthy m.ruleId then (w, false)
  else
    let rid := m.ruleId.getD ""
    match rules.find? (fun r => r.id = some rid) with
    | none => (w, false)
    | some rule =>
      let labelName := pyStrip ((rule.label).getD "")
      if labelName = "" then (w, false)
      else
        match env.checkOrCreateLabel labelName with
        | Except.error _ => (w, false)
        | Except.ok labelId =>
          let w := if truthy labelId ∧ labelId ≠ rule.labelId then
              { w with mgrRules := updateRuleLabelId w.mgrRules rid labelId }
            else w
          let labels := if truthy labelId then [labelId.getD ""]
            else [labelName]
          let w := { w with applyCalls := w.applyCalls + 1 }
          match env.applyLabelsToMessage mid labels with
          | Except.error _ => (w, false)
          | Except.ok b => (w, b)

/-- The whole inner loop: fold `processMatch` over the matches, accumulating
`applied_any`. -/
def processMatches (env : Env) (rules : List Rule) (mid : String) (w : World)
    (ms : List MatchItem) : World × Bool :=
  ms.foldl (fun acc m =>
    let r := processMatch env rules mid acc.1 m
    (r.1, acc.2 || r.2)) (w, false)

/-- Result of handling one candidate in the outer loop. -/
structure StepResult where
  world : World
  labeled : Nat
  brk : Bool

/-- The body of the `for email_payload in candidates` loop of
`_auto_label_recent_emails`, for one candidate:  skip silently on a falsy id
or an already-processed id; resolve the detail/body/subject and skip
silently when both are empty; log the start, call the evaluator; on failure
log and sleep; with no matches sleep; otherwise apply the matches, and if
any label stuck mark the message processed, log completion and either break
(batch target reached, before the sleep) or sleep. -/
def autoLabelStep (env : Env) (rules : List Rule) (batchTarget : Nat)
    (delay : Int) (w : World) (labeled : Nat) (c : Email) : StepResult :=
  let mid := c.id.getD ""
  if ¬ truthy c.id || isProcessed w.processed mid then ⟨w, labeled, false⟩
  else
    let body := candidateBody env c
    let subject := candidateSubject env c
    if body = "" ∧ subject = "" then ⟨w, labeled, false⟩
    else
      let w := if displayName env c ≠ "" then
          appendLog w "info" (startProcessingMsg (displayName env c))
        else w
      let w := { w with evalCalls := w.evalCalls + 1 }
      match env.evalRules mid with
      | Except.error e =>
          let w := appendLog w "error" (llmFailedMsg mid e)
          ⟨sleepIf delay w, labeled, false⟩
      | Except.ok evaluation =>
          let ms := evaluation.getD []
          if ms.isEmpty then ⟨sleepIf delay w, labeled, false⟩
          else
            let r := processMatches env rules mid w ms
            let w := r.1
            if r.2 then
              let w := { w with
                processed := markProcessed w.processed mid env.now }
              let labeled := labeled + 1
              let w := appendLog w "info"
                (labelDoneMsg (strOr subject mid) ms.length)
              if labeled ≥ batchTarget then ⟨w, labeled, true⟩
              else ⟨sleepIf delay w, labeled, false⟩
            else ⟨sleepIf delay w, labeled, false⟩

/-- The outer candidate loop with its early `break`. -/
def autoLabelLoop (env : Env) (rules : List Rule) (batchTarget : Nat)
    (delay : Int) : World → Nat → List Email → World × Nat
  | w, labeled, [] => (w, labeled)
  | w, labeled, c :: rest =>
      let r := autoLabelStep env rules batchTarget delay w labeled c
      if r.brk then (r.world, r.labeled)
      else autoLabelLoop env rules batchTarget delay r.world r.labeled rest

/-- `_auto_label_recent_emails(gmail_client)`: returns the updated world and
the `labeled_count`. -/
def autoLabelRecentEmails (env : Env) (w : World) : World × Nat :=
  let rules := w.mgrRules
  if rules.isEmpty then (w, 0)
  else
    let batchTarget := (max 1 env.maxPerCycle).toNat
    let delay := max 0 env.intervalSeconds
    let candidates := env.candidates
    let w := if env.usedCache then
        appendLog w "info" (cacheCandidatesMsg candidates.length)
      else w
    if candidates.isEmpty then
      (appendLog w "warning" noCandidatesMsg, 0)
    else
      autoLabelLoop env rules batchTarget delay w 0 candidates

/-- `_run_auto_label_pipeline(gmail_client, context)`: skip (with one log
entry) when automation is disabled, otherwise run the cycle, record the
status fields and log completion.  (The embedding is total, so the
`except`-branch that records `last_error` is unreachable here.) -/
def runAutoLabelPipeline (env : Env) (w : World) (context : String) :
    World :=
  if ¬ w.automationEnabled then
    appendLog w "warning" (skipDisabledMsg context)
  else
    let r := autoLabelRecentEmails env w
    let w := { r.1 with status := { r.1.status with
      lastRunAt := some env.now
      lastLabeled := r.2
      lastError := none } }
    appendLog w "info" (runDoneMsg context r.2)

/-- `_trigger_automation_run(gmail_client, context)`: ghost-record the
trigger (with the ledger contents at this moment), then either log that
Gmail credentials are unavailable or run the pipeline. -/
def triggerAutomationRun (env : Env) (w : World) (context : String) :
    World :=
  let w := { w with
    triggerEvents := w.triggerEvents ++ [⟨context, w.processed.state⟩] }
  if ¬ env.gmailAvailable then
    appendLog w "warning" (gmailUnavailableMsg context)
  else
    runAutoLabelPipeline env w context

/-- `_reset_processed_email_cache(reason)`. -/
def resetProcessedEmailCache (w : World) (reason : String) : World :=
  appendLog { w with processed := resetStore w.processed } "info"
    (resetCacheMsg reason)

/-- `update_automation_settings` (PUT `/automation/settings`) with
`enabled = bool(payload.get('automation_enabled'))`: persist the flag, log,
and when enabling, reset the processed ledger only if automation was
previously disabled, then trigger a run. -/
def updateAutomationSettings (env : Env) (w : World) (enabled : Bool) :
    World :=
  let wasEnabled := w.automationEnabled
  let w := { w with automationEnabled := enabled }
  let w := appendLog w "info" (toggleMsg enabled)
  if enabled then
    let w := if ¬ wasEnabled then resetProcessedEmailCache w "自动化开启"
      else w
    triggerAutomationRun env w "automation_enabled"
  else w

/-! Frame lemmas: which `World` fields each pipeline function leaves
untouched. -/

theorem processMatch_frame (env : Env) (rules : List Rule) (mid : String)
    (w : World) (m : MatchItem) :
    (processMatch env rules mid w m).1.triggerEvents = w.triggerEvents ∧
    (processMatch env rules mid w m).1.processed = w.processed ∧
    (processMatch env rules mid w m).1.evalCalls = w.evalCalls ∧
    (processMatch env rules mid w m).1.sleeps = w.sleeps ∧
    (processMatch env rules mid w m).1.logEvents = w.logEvents ∧
    (processMatch env rules mid w m).1.status = w.status ∧
    (processMatch env rules mid w m).1.automationEnabled =
      w.automationEnabled := by
  simp only [processMatch]
  split
  · simp
  · split
    · simp
    · split
      · simp
      · split
        · simp
        · split
          · simp [apply_ite]
          · simp [apply_ite]

theorem processMatchesAux_frame (env : Env) (rules : List Rule)
    (mid : String) :
    ∀ (ms : List MatchItem) (acc : World × Bool),
      ((ms.foldl (fun acc m =>
          let r := processMatch env rules mid acc.1 m
          (r.1, acc.2 || r.2)) acc).1.triggerEvents =
        acc.1.triggerEvents) ∧
      ((ms.foldl (fun acc m =>
          let r := processMatch env rules mid acc.1 m
          (r.1, acc.2 || r.2)) acc).1.processed = acc.1.processed) ∧
      ((ms.foldl (fun acc m =>
          let r := processMatch env rules mid acc.1 m
          (r.1, acc.2 || r.2)) acc).1.evalCalls = acc.1.evalCalls) ∧
      ((ms.foldl (fun acc m =>
          let r := processMatch env rules mid acc.1 m
          (r.1, acc.2 || r.2)) acc).1.sleeps = acc.1.sleeps) ∧
      ((ms.foldl (fun acc m =>
          let r := processMatch env rules mid acc.1 m
          (r.1, acc.2 || r.2)) acc).1.logEvents = acc.1.logEvents) ∧
      ((ms.foldl (fun acc m =>
          let r := processMatch env rules mid acc.1 m
          (r.1, acc.2 || r.2)) acc).1.status = acc.1.status) ∧
      ((ms.foldl (fun acc m =>
          let r := processMatch env rules mid acc.1 m
          (r.1, acc.2 || r.2)) acc).1.automationEnabled =
        acc.1.automationEnabled) := by
  intro ms
  induction ms with
  | nil => intro acc; exact ⟨rfl, rfl, rfl, rfl, rfl, rfl, rfl⟩
  | cons m rest ih =>
    intro acc
    rw [List.foldl_cons]
    have h1 := processMatch_frame env rules mid acc.1 m
    have h2 := ih ((processMatch env rules mid acc.1 m).1,
      acc.2 || (processMatch env rules mid acc.1 m).2)
    exact ⟨h2.1.trans h1.1, (h2.2.1).trans h1.2.1,
      (h2.2.2.1).trans h1.2.2.1, (h2.2.2.2.1).trans h1.2.2.2.1,
      (h2.2.2.2.2.1).trans h1.2.2.2.2.1,
      (h2.2.2.2.2.2.1).trans h1.2.2.2.2.2.1,
      (h2.2.2.2.2.2.2).trans h1.2.2.2.2.2.2⟩

theorem processMatches_triggerEvents (env : Env) (rules : List Rule)
    (mid : String) (w : World) (ms : List MatchItem) :
    (processMatches env rules mid w ms).1.triggerEvents = w.triggerEvents :=
  (processMatchesAux_frame env rules mid ms (w, false)).1

theorem processMatches_processed (env : Env) (rules : List Rule)
    (mid : String) (w : World) (ms : List MatchItem) :
    (processMatches env rules mid w ms).1.processed = w.processed :=
  (processMatchesAux_frame env rules mid ms (w, false)).2.1

theorem processMatches_evalCalls (env : Env) (rules : List Rule)
    (mid : String) (w : World) (ms : List MatchItem) :
    (processMatches env rules mid w ms).1.evalCalls = w.evalCalls :=
  (processMatchesAux_frame env rules mid ms (w, false)).2.2.1

theorem processMatches_sleeps (env : Env) (rules : List Rule)
    (mid : String) (w : World) (ms : List MatchItem) :
    (processMatches env rules mid w ms).1.sleeps = w.sleeps :=
  (processMatchesAux_frame env rules mid ms (w, false)).2.2.2.1

theorem processMatches_logEvents (env : Env) (rules : List Rule)
    (mid : String) (w : World) (ms : List MatchItem) :
    (processMatches env rules mid w ms).1.logEvents = w.logEvents :=
  (processMatchesAux_frame env rules mid ms (w, false)).2.2.2.2.1

theorem processMatches_status (env : Env) (rules : List Rule)
    (mid : String) (w : World) (ms : List MatchItem) :
    (processMatches env rules mid w ms).1.status = w.status :=
  (processMatchesAux_frame env rules mid ms (w, false)).2.2.2.2.2.1

theorem processMatches_automationEnabled (env : Env) (rules : List Rule)
    (mid : String) (w : World) (ms : List MatchItem) :
    (processMatches env rules mid w ms).1.automationEnabled =
      w.automationEnabled :=
  (processMatchesAux_frame env rules mid ms (w, false)).2.2.2.2.2.2

theorem autoLabelStep_frame (env : Env) (rules : List Rule)
    (batchTarget : Nat) (delay : Int) (w : World) (labeled : Nat)
    (c : Email) :
    (autoLabelStep env rules batchTarget delay w labeled c).world.triggerEvents
      = w.triggerEvents ∧
    (autoLabelStep env rules batchTarget delay w labeled c).world.status
      = w.status ∧
    (autoLabelStep env rules batchTarget delay w labeled c).world.automationEnabled
      = w.automationEnabled := by
  simp only [autoLabelStep]
  repeat' split
  all_goals simp [appendLog, sleepIf, apply_ite,
    processMatches_triggerEvents, processMatches_status,
    processMatches_automationEnabled]

theorem autoLabelLoop_frame (env : Env) (rules : List Rule)
    (batchTarget : Nat) (delay : Int) :
    ∀ (cs : List Email) (w : World) (labeled : Nat),
      ((autoLabelLoop env rules batchTarget delay w labeled cs).1.triggerEvents
        = w.triggerEvents) ∧
      ((autoLabelLoop env rules batchTarget delay w labeled cs).1.status
        = w.status) ∧
      ((autoLabelLoop env rules batchTarget delay w labeled cs).1.automationEnabled
        = w.automationEnabled)
  | [], w, labeled => ⟨rfl, rfl, rfl⟩
  | c :: rest, w, labeled => by
      rw [autoLabelLoop]
      have h1 := autoLabelStep_frame env rules batchTarget delay w labeled c
      split
      · exact h1
      · have h2 := autoLabelLoop_frame env rules batchTarget delay rest
          (autoLabelStep env rules batchTarget delay w labeled c).world
          (autoLabelStep env rules batchTarget delay w labeled c).labeled
        exact ⟨h2.1.trans h1.1, h2.2.1.trans h1.2.1, h2.2.2.trans h1.2.2⟩

theorem autoLabelRecentEmails_frame (env : Env) (w : World) :
    ((autoLabelRecentEmails env w).1.triggerEvents = w.triggerEvents) ∧
    ((autoLabelRecentEmails env w).1.status = w.status) ∧
    ((autoLabelRecentEmails env w).1.automationEnabled =
      w.automationEnabled) := by
  simp only [autoLabelRecentEmails]
  split
  · exact ⟨rfl, rfl, rfl⟩
  · split
    · split <;> simp [appendLog]
    · split
      · have h := autoLabelLoop_frame env w.mgrRules
          (max 1 env.maxPerCycle).toNat (max 0 env.intervalSeconds)
          env.candidates
          (appendLog w "info" (cacheCandidatesMsg env.candidates.length)) 0
        simpa [appendLog] using h
      · exact autoLabelLoop_frame env w.mgrRules
          (max 1 env.maxPerCycle).toNat (max 0 env.intervalSeconds)
          env.candidates w 0

theorem runAutoLabelPipeline_triggerEvents (env : Env) (w : World)
    (context : String) :
    (runAutoLabelPipeline env w context).triggerEvents = w.triggerEvents := by
  simp only [runAutoLabelPipeline]
  split
  · rfl
  · have h := (autoLabelRecentEmails_frame env w).1
    simp [appendLog, h]

/-- **C3.** With `automation_enabled = false` a pipeline run returns
immediately: no evaluator call, no label application, the processed ledger
and the automation status are untouched, and exactly one log entry (the
warning noting the skip) is appended. -/
theorem pipeline_disabled_noop (env : Env) (w : World) (context : String)
    (hdisabled : w.automationEnabled = false) :
    runAutoLabelPipeline env w context =
      { w with logEvents :=
          w.logEvents ++ [⟨"warning", skipDisabledMsg context⟩] } ∧
    (runAutoLabelPipeline env w context).evalCalls = w.evalCalls ∧
    (runAutoLabelPipeline env w context).applyCalls = w.applyCalls ∧
    (runAutoLabelPipeline env w context).processed = w.processed ∧
    (runAutoLabelPipeline env w context).status = w.status ∧
    (runAutoLabelPipeline env w context).logEvents =
      w.logEvents ++ [⟨"warning", skipDisabledMsg context⟩] := by
  have hcond : ¬ w.automationEnabled = true := by simp [hdisabled]
  have h : runAutoLabelPipeline env w context =
      { w with logEvents :=
          w.logEvents ++ [⟨"warning", skipDisabledMsg context⟩] } := by
    unfold runAutoLabelPipeline
    rw [if_pos hcond]
    simp [appendLog]
  refine ⟨h, ?_, ?_, ?_, ?_, ?_⟩ <;> rw [h]

/-- Witness for `pipeline_disabled_noop`: a concrete disabled world makes a
run that leaves the counters, ledger and status unchanged and appends the
skip warning. -/
theorem pipeline_disabled_noop_witness :
    ((⟨false, [⟨some "r1", some "work", some "because", none⟩],
        ⟨30, 2000, [("m0", 0)]⟩, ⟨none, none, 0, none⟩, [], 0, 0, 0, []⟩ :
      World).automationEnabled = false) ∧
    (runAutoLabelPipeline
      ⟨fun _ => Except.ok none, fun _ => Except.ok none,
        fun _ _ => Except.ok false, fun _ => none, 5, 1, [], false, true, 0⟩
      ⟨false, [⟨some "r1", some "work", some "because", none⟩],
        ⟨30, 2000, [("m0", 0)]⟩, ⟨none, none, 0, none⟩, [], 0, 0, 0, []⟩
      "scheduled").evalCalls = 0 ∧
    (runAutoLabelPipeline
      ⟨fun _ => Except.ok none, fun _ => Except.ok none,
        fun _ _ => Except.ok false, fun _ => none, 5, 1, [], false, true, 0⟩
      ⟨false, [⟨some "r1", some "work", some "because", none⟩],
        ⟨30, 2000, [("m0", 0)]⟩, ⟨none, none, 0, none⟩, [], 0, 0, 0, []⟩
      "scheduled").logEvents =
      [] ++ [⟨"warning", skipDisabledMsg "scheduled"⟩] :=
  ⟨rfl,
    (pipeline_disabled_noop
      ⟨fun _ => Except.ok none, fun _ => Except.ok none,
        fun _ _ => Except.ok false, fun _ => none, 5, 1, [], false, true, 0⟩
      ⟨false, [⟨some "r1", some "work", some "because", none⟩],
        ⟨30, 2000, [("m0", 0)]⟩, ⟨none, none, 0, none⟩, [], 0, 0, 0, []⟩
      "scheduled" rfl).2.1,
    (pipeline_disabled_noop
      ⟨fun _ => Except.ok none, fun _ => Except.ok none,
        fun _ _ => Except.ok false, fun _ => none, 5, 1, [], false, true, 0⟩
      ⟨false, [⟨some "r1", some "work", some "because", none⟩],
        ⟨30, 2000, [("m0", 0)]⟩, ⟨none, none, 0, none⟩, [], 0, 0, 0, []⟩
      "scheduled" rfl).2.2.2.2.2⟩

/-- **C5.** Toggling the automation settings with `enabled = true` triggers
exactly one run, and the ledger that run starts from is emptied when
automation was previously disabled and untouched when it was already
enabled (the reset happens only on the disabled-to-enabled transition). -/
theorem enable_toggle_ledger_reset (env : Env) (w : World) :
    (updateAutomationSettings env w true).triggerEvents =
      w.triggerEvents ++
        [⟨"automation_enabled",
          if w.automationEnabled then w.processed.state else []⟩] := by
  cases hw : w.automationEnabled with
  | false =>
    simp [updateAutomationSettings, hw, triggerAutomationRun,
      resetProcessedEmailCache, resetStore, appendLog,
      runAutoLabelPipeline_triggerEvents, apply_ite]
  | true =>
    simp [updateAutomationSettings, hw, triggerAutomationRun,
      resetProcessedEmailCache, resetStore, appendLog,
      runAutoLabelPipeline_triggerEvents, apply_ite]

/-! Spec-side predicates describing per-candidate outcomes, built from the
same sub-definitions as the loop body. -/

/-- Whether one `matches` entry ends with `success = True`: a truthy
`rule_id` resolving to a snapshot rule with a non-blank label, whose
`check_or_create_label` does not raise and whose
`apply_labels_to_message` returns `True`. -/
def matchSucceeds (env : Env) (rules : List Rule) (mid : String)
    (m : MatchItem) : Bool :=
  if ¬ truthy m.ruleId then false
  else
    let rid := m.ruleId.getD ""
    match rules.find? (fun r => r.id = some rid) with
    | none => false
    | some rule =>
      let labelName := pyStrip ((rule.label).getD "")
      if labelName = "" then false
      else
        match env.checkOrCreateLabel labelName with
        | Except.error _ => false
        | Except.ok labelId =>
          match env.applyLabelsToMessage mid
            (if truthy labelId then [labelId.getD ""] else [labelName]) with
          | Except.error _ => false
          | Except.ok b => b

/-- The `success` flag of `processMatch` depends only on the oracles, the
rule snapshot and the match, never on the mutable world. -/
theorem processMatch_snd (env : Env) (rules : List Rule) (mid : String)
    (w : World) (m : MatchItem) :
    (processMatch env rules mid w m).2 = matchSucceeds env rules mid m := by
  simp only [processMatch, matchSucceeds]
  repeat' split
  all_goals rfl

/-- `applied_any` is true iff some match entry succeeds. -/
theorem processMatchesAux_snd (env : Env) (rules : List Rule)
    (mid : String) :
    ∀ (ms : List MatchItem) (acc : World × Bool),
      (ms.foldl (fun acc m =>
          let r := processMatch env rules mid acc.1 m
          (r.1, acc.2 || r.2)) acc).2 =
        (acc.2 || ms.any (matchSucceeds env rules mid))
  | [], acc => by simp
  | m :: rest, acc => by
      rw [List.foldl_cons, List.any_cons]
      rw [processMatchesAux_snd env rules mid rest]
      dsimp only
      rw [processMatch_snd]
      rw [Bool.or_assoc]

theorem processMatches_snd (env : Env) (rules : List Rule) (mid : String)
    (w : World) (ms : List MatchItem) :
    (processMatches env rules mid w ms).2 =
      ms.any (matchSucceeds env rules mid) := by
  have h := processMatchesAux_snd env rules mid ms (w, false)
  simpa [processMatches] using h

/-- A candidate that the loop skips before reaching the evaluator: falsy
message id, already processed, or empty body and subject. -/
def skipsBeforeEvaluation (env : Env) (w : World) (c : Email) : Bool :=
  (¬ truthy c.id || isProcessed w.processed (c.id.getD "")) ||
    (candidateBody env c = "" && candidateSubject env c = "")

/-- The evaluator answers without raising, with a non-empty `matches` list
at least one entry of which is successfully applied. -/
def evalYieldsApplicableMatch (env : Env) (rules : List Rule) (c : Email) :
    Bool :=
  match env.evalRules (c.id.getD "") with
  | Except.error _ => false
  | Except.ok evaluation =>
      let ms := evaluation.getD []
      ¬ ms.isEmpty && ms.any (matchSucceeds env rules (c.id.getD ""))

theorem appendLog_sleeps (w : World) (l m : String) :
    (appendLog w l m).sleeps = w.sleeps := rfl

theorem ite_appendLog_sleeps (p : Prop) [Decidable p] (w : World)
    (l m : String) :
    (if p then appendLog w l m else w).sleeps = w.sleeps := by
  split <;> rfl

theorem sleepIf_sleeps_of_ne {delay : Int} (hdz : delay ≠ 0) (w : World) :
    (sleepIf delay w).sleeps = w.sleeps + 1 := by
  simp [sleepIf, hdz]

theorem ite_appendLog_sleeps' (p : Prop) [Decidable p] (w : World)
    (l m : String) :
    (if p then w else appendLog w l m).sleeps = w.sleeps := by
  split <;> rfl

/-- **C4 (amended).** With a positive delay, handling one candidate sleeps
exactly once unless the candidate is skipped before evaluation (falsy id,
already processed, or empty body and subject) or it is the successfully
labeled candidate that reaches the batch target, in which case the loop
breaks before the sleep.  (The original claim — a sleep after every
candidate regardless of outcome — fails on the skip paths and on the final
break; see the counterexample.) -/
theorem step_sleep_characterization (env : Env) (rules : List Rule)
    (batchTarget : Nat) (delay : Int) (w : World) (labeled : Nat)
    (c : Email) (hdelay : 0 < delay) :
    (autoLabelStep env rules batchTarget delay w labeled c).world.sleeps =
      w.sleeps +
        (if skipsBeforeEvaluation env w c = true ∨
            (evalYieldsApplicableMatch env rules c = true ∧
              batchTarget ≤ labeled + 1)
          then 0 else 1) := by
  have hdz : delay ≠ 0 := by omega
  simp only [autoLabelStep]
  split
  · rename_i hskip
    have hs : skipsBeforeEvaluation env w c = true := by
      simp only [skipsBeforeEvaluation]
      simp only [Bool.or_eq_true]
      left
      simpa using hskip
    rw [if_pos (Or.inl hs)]
    simp
  · rename_i hnoskip
    split
    · rename_i hempty
      have hs : skipsBeforeEvaluation env w c = true := by
        simp only [skipsBeforeEvaluation]
        simp only [Bool.or_eq_true]
        right
        simp [hempty.1, hempty.2]
      rw [if_pos (Or.inl hs)]
      simp
    · rename_i hnonempty
      have hs : skipsBeforeEvaluation env w c = false := by
        simp only [skipsBeforeEvaluation]
        simp only [Bool.or_eq_false_iff]
        constructor
        · simpa using hnoskip
        · simp only [Bool.and_eq_false_iff]
          by_cases hb : candidateBody env c = ""
          · right
            have hsub : ¬ candidateSubject env c = "" := fun hsu =>
              hnonempty ⟨hb, hsu⟩
            simp [hsub]
          · left
            simp [hb]
      set W0 := if displayName env c ≠ "" then
          appendLog w "info" (startProcessingMsg (displayName env c))
        else w with hW0
      have hW0s : W0.sleeps = w.sleeps := by
        rw [hW0]
        exact ite_appendLog_sleeps _ w _ _
      split
      · rename_i e heval
        have hy : evalYieldsApplicableMatch env rules c = false := by
          simp [evalYieldsApplicableMatch, heval]
        have hneg : ¬ (skipsBeforeEvaluation env w c = true ∨
            (evalYieldsApplicableMatch env rules c = true ∧
              batchTarget ≤ labeled + 1)) := by
          intro hcon
          rcases hcon with hcon | ⟨hcon, _⟩
          · rw [hs] at hcon; exact Bool.false_ne_true hcon
          · rw [hy] at hcon; exact Bool.false_ne_true hcon
        rw [if_neg hneg]
        rw [sleepIf_sleeps_of_ne hdz, appendLog_sleeps]
        simp [hW0s]
      · rename_i evaluation heval
        split
        · rename_i hms
          have hy : evalYieldsApplicableMatch env rules c = false := by
            simp [evalYieldsApplicableMatch, heval, hms]
          have hneg : ¬ (skipsBeforeEvaluation env w c = true ∨
              (evalYieldsApplicableMatch env rules c = true ∧
                batchTarget ≤ labeled + 1)) := by
            intro hcon
            rcases hcon with hcon | ⟨hcon, _⟩
            · rw [hs] at hcon; exact Bool.false_ne_true hcon
            · rw [hy] at hcon; exact Bool.false_ne_true hcon
          rw [if_neg hneg]
          rw [sleepIf_sleeps_of_ne hdz]
          simp [hW0s]
        · rename_i hms
          split
          · rename_i happlied
            rw [processMatches_snd] at happlied
            have hy : evalYieldsApplicableMatch env rules c = true := by
              simp [evalYieldsApplicableMatch, heval, hms, happlied]
            split
            · rename_i htarget
              rw [if_pos (Or.inr ⟨hy, htarget⟩)]
              simp [appendLog, processMatches_sleeps, hW0s]
            · rename_i htarget
              have hneg : ¬ (skipsBeforeEvaluation env w c = true ∨
                  (evalYieldsApplicableMatch env rules c = true ∧
                    batchTarget ≤ labeled + 1)) := by
                intro hcon
                rcases hcon with hcon | ⟨_, hcon⟩
                · rw [hs] at hcon; exact Bool.false_ne_true hcon
                · exact htarget hcon
              rw [if_neg hneg]
              rw [sleepIf_sleeps_of_ne hdz, appendLog_sleeps]
              simp [processMatches_sleeps, hW0s]
          · rename_i happlied
            rw [processMatches_snd] at happlied
            have hy : evalYieldsApplicableMatch env rules c = false := by
              simp only [evalYieldsApplicableMatch, heval]
              simp only [Bool.and_eq_false_iff]
              right
              simpa using happlied
            have hneg : ¬ (skipsBeforeEvaluation env w c = true ∨
                (evalYieldsApplicableMatch env rules c = true ∧
                  batchTarget ≤ labeled + 1)) := by
              intro hcon
              rcases hcon with hcon | ⟨hcon, _⟩
              · rw [hs] at hcon; exact Bool.false_ne_true hcon
              · rw [hy] at hcon; exact Bool.false_ne_true hcon
            rw [if_neg hneg]
            rw [sleepIf_sleeps_of_ne hdz]
            simp [processMatches_sleeps, hW0s]

/-- Witness for `step_sleep_characterization`: an already-processed
candidate with delay 1 adds zero sleeps. -/
theorem step_sleep_characterization_witness :
    ((0 : Int) < 1) ∧
    (autoLabelStep
      ⟨fun _ => Except.ok none, fun _ => Except.ok none,
        fun _ _ => Except.ok false, fun _ => none, 5, 1,
        [⟨some "m1", some "hello", none, some "subj", some "s", some "sn"⟩],
        false, true, 0⟩
      [⟨some "r1", some "work", some "because", none⟩] 3 1
      ⟨true, [⟨some "r1", some "work", some "because", none⟩],
        ⟨30, 2000, [("m1", 0)]⟩, ⟨none, none, 0, none⟩, [], 0, 0, 0, []⟩ 0
      ⟨some "m1", some "hello", none, some "subj", some "s", some "sn"⟩
      ).world.sleeps =
      (⟨true, [⟨some "r1", some "work", some "because", none⟩],
        ⟨30, 2000, [("m1", 0)]⟩, ⟨none, none, 0, none⟩, [], 0, 0, 0, []⟩ :
        World).sleeps +
        (if skipsBeforeEvaluation
            ⟨fun _ => Except.ok none, fun _ => Except.ok none,
              fun _ _ => Except.ok false, fun _ => none, 5, 1,
              [⟨some "m1", some "hello", none, some "subj", some "s",
                some "sn"⟩], false, true, 0⟩
            ⟨true, [⟨some "r1", some "work", some "because", none⟩],
              ⟨30, 2000, [("m1", 0)]⟩, ⟨none, none, 0, none⟩, [], 0, 0, 0, []⟩
            ⟨some "m1", some "hello", none, some "subj", some "s",
              some "sn"⟩ = true ∨
            (evalYieldsApplicableMatch
              ⟨fun _ => Except.ok none, fun _ => Except.ok none,
                fun _ _ => Except.ok false, fun _ => none, 5, 1,
                [⟨some "m1", some "hello", none, some "subj", some "s",
                  some "sn"⟩], false, true, 0⟩
              [⟨some "r1", some "work", some "because", none⟩]
              ⟨some "m1", some "hello", none, some "subj", some "s",
                some "sn"⟩ = true ∧ 3 ≤ 0 + 1)
          then 0 else 1) :=
  ⟨by decide,
    step_sleep_characterization
      ⟨fun _ => Except.ok none, fun _ => Except.ok none,
        fun _ _ => Except.ok false, fun _ => none, 5, 1,
        [⟨some "m1", some "hello", none, some "subj", some "s", some "sn"⟩],
        false, true, 0⟩
      [⟨some "r1", some "work", some "because", none⟩] 3 1
      ⟨true, [⟨some "r1", some "work", some "because", none⟩],
        ⟨30, 2000, [("m1", 0)]⟩, ⟨none, none, 0, none⟩, [], 0, 0, 0, []⟩ 0
      ⟨some "m1", some "hello", none, some "subj", some "s", some "sn"⟩
      (by decide)⟩

/-- Counterexample to **C4** as stated: a cycle with
`delay_seconds = 1 > 0` whose single candidate is handled (skipped as
already processed) performs zero sleeps, not one sleep per handled
candidate. -/
theorem sleep_not_after_skipped_candidate :
    (0 : Int) < max 0
      (⟨fun _ => Except.ok none, fun _ => Except.ok none,
        fun _ _ => Except.ok false, fun _ => none, 5, 1,
        [⟨some "m1", some "hello", none, some "subj", some "s", some "sn"⟩],
        false, true, 0⟩ : Env).intervalSeconds ∧
    (⟨fun _ => Except.ok none, fun _ => Except.ok none,
        fun _ _ => Except.ok false, fun _ => none, 5, 1,
        [⟨some "m1", some "hello", none, some "subj", some "s", some "sn"⟩],
        false, true, 0⟩ : Env).candidates.length = 1 ∧
    (autoLabelRecentEmails
      ⟨fun _ => Except.ok none, fun _ => Except.ok none,
        fun _ _ => Except.ok false, fun _ => none, 5, 1,
        [⟨some "m1", some "hello", none, some "subj", some "s", some "sn"⟩],
        false, true, 0⟩
      ⟨true, [⟨some "r1", some "work", some "because", none⟩],
        ⟨30, 2000, [("m1", 0)]⟩, ⟨none, none, 0, none⟩, [], 0, 0, 0, []⟩
      ).1.sleeps = 0 := by
  refine ⟨by decide, by decide, ?_⟩
  decide

/-! Projection lemmas used to track the evaluator counter and the ledger
through one loop iteration. -/

theorem appendLog_processed (w : World) (l m : String) :
    (appendLog w l m).processed = w.processed := rfl

theorem appendLog_evalCalls (w : World) (l m : String) :
    (appendLog w l m).evalCalls = w.evalCalls := rfl

theorem sleepIf_processed (d : Int) (w : World) :
    (sleepIf d w).processed = w.processed := by
  unfold sleepIf
  split <;> rfl

theorem sleepIf_evalCalls (d : Int) (w : World) :
    (sleepIf d w).evalCalls = w.evalCalls := by
  unfold sleepIf
  split <;> rfl

theorem ite_appendLog_processed (p : Prop) [Decidable p] (w : World)
    (l m : String) :
    (if p then appendLog w l m else w).processed = w.processed := by
  split <;> rfl

theorem ite_appendLog_evalCalls (p : Prop) [Decidable p] (w : World)
    (l m : String) :
    (if p then appendLog w l m else w).evalCalls = w.evalCalls := by
  split <;> rfl

/-- A candidate that "would be successfully labeled" whenever the loop
reaches it unprocessed: truthy id, non-empty resolved content, and an
evaluator answer with an applicable match. -/
def labelable (env : Env) (rules : List Rule) (c : Email) : Bool :=
  truthy c.id &&
  !(decide (candidateBody env c = "") &&
    decide (candidateSubject env c = "")) &&
  evalYieldsApplicableMatch env rules c

/-- A labelable candidate needs at least one rule in the snapshot. -/
theorem rules_ne_nil_of_labelable {env : Env} {rules : List Rule}
    {c : Email} (h : labelable env rules c = true) : rules ≠ [] := by
  intro hnil
  subst hnil
  simp only [labelable, Bool.and_eq_true] at h
  have h3 := h.2
  unfold evalYieldsApplicableMatch at h3
  split at h3
  · cases h3
  · rw [Bool.and_eq_true, List.any_eq_true] at h3
    obtain ⟨m, _, hm⟩ := h3.2
    unfold matchSucceeds at hm
    split at hm
    · cases hm
    · simp [List.find?_nil] at hm

/-- One loop iteration on a labelable, unprocessed candidate with spare
ledger capacity: the labeled counter advances by one, the loop breaks
exactly when the batch target is reached, the evaluator is called exactly
once, and the candidate is marked processed. -/
theorem autoLabelStep_of_labelable (env : Env) (rules : List Rule)
    (bt : Nat) (delay : Int) (w : World) (labeled : Nat) (c : Email)
    (hlab : labelable env rules c = true)
    (hunproc : isProcessed w.processed (c.id.getD "") = false) :
    (autoLabelStep env rules bt delay w labeled c).labeled = labeled + 1 ∧
    (autoLabelStep env rules bt delay w labeled c).brk =
      decide (bt ≤ labeled + 1) ∧
    (autoLabelStep env rules bt delay w labeled c).world.evalCalls =
      w.evalCalls + 1 ∧
    (autoLabelStep env rules bt delay w labeled c).world.processed =
      markProcessed w.processed (c.id.getD "") env.now := by
  simp only [labelable, Bool.and_eq_true] at hlab
  obtain ⟨⟨h1, h2⟩, h3⟩ := hlab
  simp only [autoLabelStep]
  split
  · rename_i h
    exfalso
    rw [Bool.or_eq_true] at h
    rcases h with h | h
    · rw [decide_eq_true_eq] at h
      exact h h1
    · rw [hunproc] at h
      exact Bool.false_ne_true h
  · split
    · rename_i h
      exfalso
      rw [Bool.not_eq_true', Bool.and_eq_false_iff] at h2
      rcases h2 with h2 | h2 <;>
        simp only [decide_eq_false_iff_not] at h2
      · exact h2 h.1
      · exact h2 h.2
    · set W0 := if displayName env c ≠ "" then
          appendLog w "info" (startProcessingMsg (displayName env c))
        else w with hW0
      have hW0p : W0.processed = w.processed := by
        rw [hW0]; exact ite_appendLog_processed _ w _ _
      have hW0e : W0.evalCalls = w.evalCalls := by
        rw [hW0]; exact ite_appendLog_evalCalls _ w _ _
      split
      · rename_i e heval
        exfalso
        rw [evalYieldsApplicableMatch, heval] at h3
        cases h3
      · rename_i evaluation heval
        rw [evalYieldsApplicableMatch, heval] at h3
        dsimp only at h3
        rw [Bool.and_eq_true] at h3
        split
        · rename_i hms
          exfalso
          rw [hms] at h3
          simp at h3
        · split
          · rename_i happlied
            split
            · rename_i htarget
              refine ⟨rfl, ?_, ?_, ?_⟩
              · simp [htarget]
              · simp [appendLog_evalCalls, processMatches_evalCalls, hW0e]
              · simp [appendLog_processed, processMatches_processed, hW0p]
            · rename_i htarget
              refine ⟨rfl, ?_, ?_, ?_⟩
              · simp only [decide_eq_false_iff_not]
                simpa using htarget
              · simp [sleepIf_evalCalls, appendLog_evalCalls,
                  processMatches_evalCalls, hW0e]
              · simp [sleepIf_processed, appendLog_processed,
                  processMatches_processed, hW0p]
          · rename_i happlied
            exfalso
            rw [processMatches_snd] at happlied
            exact happlied h3.2

theorem markProcessed_maxEntries (s : ProcessedStore) (i : String)
    (now : Int) : (markProcessed s i now).maxEntries = s.maxEntries := rfl

theorem markProcessed_maxAgeDays (s : ProcessedStore) (i : String)
    (now : Int) : (markProcessed s i now).maxAgeDays = s.maxAgeDays := rfl

/-- The candidate loop on a list of labelable, unprocessed, distinct
candidates with enough of them to fill the batch: it reaches exactly the
batch target, calls the evaluator once per consumed candidate, preserves
current-timestamp ledger entries, and marks the consumed prefix. -/
theorem autoLabelLoop_labels_batch (env : Env) (rules : List Rule)
    (bt : Nat) (delay : Int) :
    ∀ (cs : List Email) (w : World) (labeled : Nat),
      labeled < bt →
      bt - labeled ≤ cs.length →
      (∀ c ∈ cs, labelable env rules c = true) →
      (∀ c ∈ cs, isProcessed w.processed (c.id.getD "") = false) →
      (cs.map (fun c => c.id.getD "")).Nodup →
      w.processed.state.length + (bt - labeled) ≤ w.processed.maxEntries →
      (autoLabelLoop env rules bt delay w labeled cs).2 = bt ∧
      (autoLabelLoop env rules bt delay w labeled cs).1.evalCalls =
        w.evalCalls + (bt - labeled) ∧
      (∀ p ∈ w.processed.state, p.2 = env.now →
        p ∈ (autoLabelLoop env rules bt delay w labeled cs).1.processed.state) ∧
      (∀ c ∈ cs.take (bt - labeled),
        (c.id.getD "", env.now) ∈
          (autoLabelLoop env rules bt delay w labeled cs).1.processed.state)
  | [], w, labeled => by
      intro hlt hlen _ _ _ _
      exfalso
      simp only [List.length_nil, Nat.le_zero] at hlen
      omega
  | c :: rest, w, labeled => by
      intro hlt hlen hlab hunproc hnodup hcap
      obtain ⟨hsl, hsb, hse, hsp⟩ :=
        autoLabelStep_of_labelable env rules bt delay w labeled c
          (hlab c (List.mem_cons_self c rest))
          (hunproc c (List.mem_cons_self c rest))
      have hcap1 : w.processed.state.length < w.processed.maxEntries := by
        omega
      have hmem_self : (c.id.getD "", env.now) ∈
          (markProcessed w.processed (c.id.getD "") env.now).state :=
        self_mem_markProcessed env.now
          (hunproc c (List.mem_cons_self c rest)) hcap1
      have hmem_mono : ∀ p ∈ w.processed.state, p.2 = env.now →
          p ∈ (markProcessed w.processed (c.id.getD "") env.now).state :=
        fun p hp hts => mem_markProcessed_of_now
          (hunproc c (List.mem_cons_self c rest)) hcap1 hp hts
      have hlenM :=
        length_markProcessed_le w.processed (c.id.getD "") env.now
      have hhead : (c.id.getD "") ∉ rest.map (fun c => c.id.getD "") := by
        rw [List.map_cons, List.nodup_cons] at hnodup
        exact hnodup.1
      simp only [autoLabelLoop]
      set r := autoLabelStep env rules bt delay w labeled c with hr
      split
      · rename_i hbrk
        rw [hsb, decide_eq_true_eq] at hbrk
        have hbt : bt = labeled + 1 := by omega
        have hone : bt - labeled = 1 := by omega
        refine ⟨?_, ?_, ?_, ?_⟩
        · rw [hsl]
          omega
        · rw [hse, hone]
        · intro p hp hts
          rw [hsp]
          exact hmem_mono p hp hts
        · intro c' hc'
          rw [hone, List.take_succ_cons, List.take_zero] at hc'
          rw [List.mem_singleton] at hc'
          subst hc'
          rw [hsp]
          exact hmem_self
      · rename_i hbrk
        rw [hsb] at hbrk
        have htarget : ¬ bt ≤ labeled + 1 := by
          intro hcon
          exact hbrk (by simpa using hcon)
        obtain ⟨ih1, ih2, ih3, ih4⟩ :=
          autoLabelLoop_labels_batch env rules bt delay rest r.world
            (labeled + 1)
            (by omega)
            (by
              simp only [List.length_cons] at hlen
              omega)
            (fun c' hc' => hlab c' (List.mem_cons_of_mem c hc'))
            (fun c' hc' => by
              rw [hsp]
              apply isProcessed_markProcessed_of_ne
              · intro heq
                exact hhead (heq ▸ List.mem_map_of_mem
                  (fun c => c.id.getD "") hc')
              · exact hunproc c' (List.mem_cons_of_mem c hc'))
            (by
              rw [List.map_cons, List.nodup_cons] at hnodup
              exact hnodup.2)
            (by
              rw [hsp, markProcessed_maxEntries]
              omega)
        rw [hsl]
        refine ⟨ih1, ?_, ?_, ?_⟩
        · rw [ih2, hse]
          omega
        · intro p hp hts
          apply ih3
          · rw [hsp]
            exact hmem_mono p hp hts
          · exact hts
        · intro c' hc'
          have hsplit : bt - labeled = (bt - (labeled + 1)) + 1 := by omega
          rw [hsplit, List.take_succ_cons] at hc'
          rw [List.mem_cons] at hc'
          rcases hc' with hc' | hc'
          · subst hc'
            apply ih3
            · rw [hsp]
              exact hmem_self
            · rfl
          · exact ih4 c' hc'

/-- **C1.** Cap enforcement: a cycle whose candidate list holds more than
`N = max(1, AUTO_LABEL_MAX_PER_CYCLE)` labelable candidates (all with
distinct truthy ids, none processed yet, with spare ledger capacity) labels
exactly `N` messages: it returns `N`, each of the first `N` candidates is
marked processed, and the evaluator runs exactly `N` times — the loop
breaks before evaluating any remaining candidate. -/
theorem auto_label_batch_cap (env : Env) (w : World) (N : Nat)
    (hN : (max 1 env.maxPerCycle).toNat = N)
    (hlen : N < env.candidates.length)
    (hlab : ∀ c ∈ env.candidates, labelable env w.mgrRules c = true)
    (hunproc : ∀ c ∈ env.candidates,
      isProcessed w.processed (c.id.getD "") = false)
    (hnodup : (env.candidates.map (fun c => c.id.getD "")).Nodup)
    (hcap : w.processed.state.length + N ≤ w.processed.maxEntries) :
    (autoLabelRecentEmails env w).2 = N ∧
    (autoLabelRecentEmails env w).1.evalCalls = w.evalCalls + N ∧
    (∀ c ∈ env.candidates.take N,
      isProcessed (autoLabelRecentEmails env w).1.processed
        (c.id.getD "") = true) := by
  have hN1 : 1 ≤ N := by
    have h := le_max_left (1 : Int) env.maxPerCycle
    omega
  have hcne : env.candidates ≠ [] := by
    intro h
    rw [h] at hlen
    simp at hlen
  have hrne : w.mgrRules ≠ [] := by
    obtain ⟨c0, hc0⟩ := List.exists_mem_of_ne_nil env.candidates hcne
    exact rules_ne_nil_of_labelable (hlab c0 hc0)
  simp only [autoLabelRecentEmails]
  have hre : ¬ w.mgrRules.isEmpty = true := by
    simpa [List.isEmpty_iff] using hrne
  rw [if_neg hre]
  set W0 := if env.usedCache then
      appendLog w "info" (cacheCandidatesMsg env.candidates.length)
    else w with hW0
  have hW0p : W0.processed = w.processed := by
    rw [hW0]; exact ite_appendLog_processed _ w _ _
  have hW0e : W0.evalCalls = w.evalCalls := by
    rw [hW0]; exact ite_appendLog_evalCalls _ w _ _
  have hce : ¬ env.candidates.isEmpty = true := by
    simpa [List.isEmpty_iff] using hcne
  rw [if_neg hce]
  rw [hN]
  obtain ⟨l1, l2, l3, l4⟩ :=
    autoLabelLoop_labels_batch env w.mgrRules N
      (max 0 env.intervalSeconds) env.candidates W0 0
      (by omega)
      (by simpa using Nat.le_of_lt hlen)
      hlab
      (by rw [hW0p]; exact hunproc)
      hnodup
      (by rw [hW0p]; omega)
  refine ⟨l1, ?_, ?_⟩
  · rw [l2, hW0e]
    omega
  · intro c hc
    have hmem := l4 c (by simpa using hc)
    rw [isProcessed, List.any_eq_true]
    exact ⟨(c.id.getD "", env.now), hmem, by simp⟩

/-- Witness for `auto_label_batch_cap`: with `AUTO_LABEL_MAX_PER_CYCLE = 1`
and two labelable candidates, the cycle labels exactly one message, calls
the evaluator once, and marks the first candidate processed. -/
theorem auto_label_batch_cap_witness :
    ((max 1 ((⟨fun _ => Except.ok (some [⟨some "r1"⟩]),
        fun _ => Except.ok (some "L1"), fun _ _ => Except.ok true,
        fun _ => none, 1, 0,
        [⟨some "m1", some "b", none, some "s1", none, none⟩,
          ⟨some "m2", some "b", none, some "s2", none, none⟩],
        false, true, 100⟩ : Env).maxPerCycle)).toNat = 1 ∧
      1 < (⟨fun _ => Except.ok (some [⟨some "r1"⟩]),
        fun _ => Except.ok (some "L1"), fun _ _ => Except.ok true,
        fun _ => none, 1, 0,
        [⟨some "m1", some "b", none, some "s1", none, none⟩,
          ⟨some "m2", some "b", none, some "s2", none, none⟩],
        false, true, 100⟩ : Env).candidates.length) ∧
    (autoLabelRecentEmails
      ⟨fun _ => Except.ok (some [⟨some "r1"⟩]),
        fun _ => Except.ok (some "L1"), fun _ _ => Except.ok true,
        fun _ => none, 1, 0,
        [⟨some "m1", some "b", none, some "s1", none, none⟩,
          ⟨some "m2", some "b", none, some "s2", none, none⟩],
        false, true, 100⟩
      ⟨true, [⟨some "r1", some "work", some "because", none⟩],
        ⟨30, 2000, []⟩, ⟨none, none, 0, none⟩, [], 0, 0, 0, []⟩).2 = 1 ∧
    (∀ c ∈ ((⟨fun _ => Except.ok (some [⟨some "r1"⟩]),
        fun _ => Except.ok (some "L1"), fun _ _ => Except.ok true,
        fun _ => none, 1, 0,
        [⟨some "m1", some "b", none, some "s1", none, none⟩,
          ⟨some "m2", some "b", none, some "s2", none, none⟩],
        false, true, 100⟩ : Env).candidates).take 1,
      isProcessed (autoLabelRecentEmails
        ⟨fun _ => Except.ok (some [⟨some "r1"⟩]),
          fun _ => Except.ok (some "L1"), fun _ _ => Except.ok true,
          fun _ => none, 1, 0,
          [⟨some "m1", some "b", none, some "s1", none, none⟩,
            ⟨some "m2", some "b", none, some "s2", none, none⟩],
          false, true, 100⟩
        ⟨true, [⟨some "r1", some "work", some "because", none⟩],
          ⟨30, 2000, []⟩, ⟨none, none, 0, none⟩, [], 0, 0, 0, []⟩
        ).1.processed (c.id.getD "") = true) :=
  ⟨⟨by decide, by decide⟩,
    (auto_label_batch_cap
      ⟨fun _ => Except.ok (some [⟨some "r1"⟩]),
        fun _ => Except.ok (some "L1"), fun _ _ => Except.ok true,
        fun _ => none, 1, 0,
        [⟨some "m1", some "b", none, some "s1", none, none⟩,
          ⟨some "m2", some "b", none, some "s2", none, none⟩],
        false, true, 100⟩
      ⟨true, [⟨some "r1", some "work", some "because", none⟩],
        ⟨30, 2000, []⟩, ⟨none, none, 0, none⟩, [], 0, 0, 0, []⟩
      1 (by decide) (by decide) (by decide) (by decide) (by decide)
      (by decide)).1,
    (auto_label_batch_cap
      ⟨fun _ => Except.ok (some [⟨some "r1"⟩]),
        fun _ => Except.ok (some "L1"), fun _ _ => Except.ok true,
        fun _ => none, 1, 0,
        [⟨some "m1", some "b", none, some "s1", none, none⟩,
          ⟨some "m2", some "b", none, some "s2", none, none⟩],
        false, true, 100⟩
      ⟨true, [⟨some "r1", some "work", some "because", none⟩],
        ⟨30, 2000, []⟩, ⟨none, none, 0, none⟩, [], 0, 0, 0, []⟩
      1 (by decide) (by decide) (by decide) (by decide) (by decide)
      (by decide)).2.2⟩
